import Mathlib

/-!
Shallow embedding of the `error_solver` repository (package `error_solver`,
modules `solvers/_base_error_solver.py`, `solvers/error_solver.py`,
`solvers/error_solver_py.py`, `solvers/pipeline.py`) together with proofs
about the claims of its specification.

Modelling conventions:
* Python `dict`s mapping variable names to numbers become association lists
  `List (String × ℚ)`; Python's arbitrary-precision floats are modelled by `ℚ`.
* `sympy` expressions become a small arithmetic AST `Expr`;
  `expr.subs(values).evalf()` becomes `evalExpr`, which returns `none`
  exactly when a free variable is unresolved (the situation in which the
  Python code raises when a numeric value is required).
* numpy vectors and matrices become `List ℚ` and `List (List ℚ)`;
  `np.linalg.inv` is modelled by the cofactor inverse `matInvN`, with the
  `LinAlgError` on a singular or non-square block modelled explicitly.
* `x ** 0.5` (only ever applied in stdev mode) is modelled by an abstract
  square-root parameter `sqrt : ℚ → ℚ` threaded through `solve`.
* raised Python exceptions become `Except SolverError`; the constructors of
  `SolverError` carry the data interpolated into the source's messages.
-/

namespace ErrorSolverModel

/-- A Python dict mapping variable names to values of type `α`. -/
abbrev Dict (α : Type) := List (String × α)

/-- The keys of a dict, in insertion order (`list(d)` in Python). -/
def keysOf {α : Type} (d : Dict α) : List String := d.map Prod.fst

/-- Python's string comparison: lexicographic order on the code-point
sequences (the order `sorted` uses). -/
def strLe (a b : String) : Prop := a.data ≤ b.data

instance strLe.decRel : DecidableRel strLe :=
  fun a b => inferInstanceAs (Decidable (a.data ≤ b.data))

/-- Python's `sorted` on a collection of strings: lexicographic ascending sort. -/
def sortStrings (l : List String) : List String :=
  List.insertionSort strLe l

/-- Elementwise absolute value of a vector (`np.abs`). -/
def vecAbs (v : List ℚ) : List ℚ := v.map (fun x => |x|)

/-- Elementwise square of a vector (`x ** 2`). -/
def vecSq (v : List ℚ) : List ℚ := v.map (fun x => x ^ 2)

/-- Elementwise sum of two vectors (`x += y`). -/
def vecAdd (a b : List ℚ) : List ℚ := List.zipWith (· + ·) a b

/-- Dot product of two vectors. -/
def dotL (a b : List ℚ) : ℚ := (List.zipWith (· * ·) a b).sum

/-- Matrix–vector product (`M.dot(x)` with `x` a column vector). -/
def matVec (m : List (List ℚ)) (v : List ℚ) : List ℚ := m.map (fun r => dotL r v)

/-- Elementwise absolute value of a matrix (`np.abs`). -/
def matAbs (m : List (List ℚ)) : List (List ℚ) := m.map vecAbs

/-- Determinant of the leading `n × n` part of `M` by Laplace expansion along
the first row.  Models the exact value that `np.linalg.inv` tests for
singularity.  The `Nat` fuel makes the recursion structural. -/
def detN : Nat → List (List ℚ) → ℚ
  | 0, _ => 1
  | Nat.succ k, m =>
    match m with
    | [] => 1
    | r :: rs =>
      (List.range r.length).foldr
        (fun j acc =>
          acc + (-1 : ℚ) ^ j * ((r.get? j).getD 0) *
            detN k (rs.map (fun row => row.eraseIdx j)))
        0

/-- Inverse of an `n × n` matrix via the adjugate formula; models
`np.linalg.inv` (the caller checks singularity separately). -/
def matInvN (n : Nat) (m : List (List ℚ)) : List (List ℚ) :=
  let d := detN n m
  (List.range n).map fun i =>
    (List.range n).map fun j =>
      (-1 : ℚ) ^ (i + j) * detN (n - 1) ((m.eraseIdx j).map (fun row => row.eraseIdx i)) / d

/-- Arithmetic expression AST: the fragment of `sympy` expressions the
solver manipulates (parsed equations and their partial derivatives). -/
inductive Expr where
  | num : ℚ → Expr
  | var : String → Expr
  | add : Expr → Expr → Expr
  | sub : Expr → Expr → Expr
  | mul : Expr → Expr → Expr
  | neg : Expr → Expr
  | pow : Expr → Nat → Expr
deriving DecidableEq

/-- Evaluation `expr.subs(values).evalf()` followed by a numeric conversion: `none`
models the situation in which a free variable remains unresolved and the
Python code raises when it requires a number. -/
def evalExpr : Expr → Dict ℚ → Option ℚ
  | .num q, _ => some q
  | .var s, d => d.lookup s
  | .add a b, d => do pure ((← evalExpr a d) + (← evalExpr b d))
  | .sub a b, d => do pure ((← evalExpr a d) - (← evalExpr b d))
  | .mul a b, d => do pure ((← evalExpr a d) * (← evalExpr b d))
  | .neg a, d => do pure (-(← evalExpr a d))
  | .pow a n, d => do pure ((← evalExpr a d) ^ n)

/-- Free variable names of an expression (`expr.free_symbols`), deduplicated. -/
def freeVars : Expr → List String
  | .num _ => []
  | .var s => [s]
  | .add a b => (freeVars a ++ freeVars b).dedup
  | .sub a b => (freeVars a ++ freeVars b).dedup
  | .mul a b => (freeVars a ++ freeVars b).dedup
  | .neg a => freeVars a
  | .pow a _ => freeVars a

/-- Symbolic partial derivative (`sympy.diff eq k`). -/
def derivE : Expr → String → Expr
  | .num _, _ => .num 0
  | .var s, k => if s = k then .num 1 else .num 0
  | .add a b, k => .add (derivE a k) (derivE b k)
  | .sub a b, k => .sub (derivE a k) (derivE b k)
  | .mul a b, k => .add (.mul (derivE a k) b) (.mul a (derivE b k))
  | .neg a, k => .neg (derivE a k)
  | .pow a n, k =>
    match n with
    | 0 => .num 0
    | Nat.succ p => .mul (.mul (.num (Nat.succ p : ℚ)) (.pow a p)) (derivE a k)

/-- Substitution `eq.subs(names)` for a name dict mapping old names to new. -/
def substVars (names : Dict String) : Expr → Expr
  | .num q => .num q
  | .var s => .var ((names.lookup s).getD s)
  | .add a b => .add (substVars names a) (substVars names b)
  | .sub a b => .sub (substVars names a) (substVars names b)
  | .mul a b => .mul (substVars names a) (substVars names b)
  | .neg a => .neg (substVars names a)
  | .pow a n => .pow (substVars names a) n

/-- The partial-derivative map of one equation, as built by `set_partials`:
`{k: sympy.diff(eq, k) for k in map(str, eq.free_symbols)}`. -/
def partialMap (e : Expr) : Dict Expr :=
  (freeVars e).map fun k => (k, derivE e k)

/-- The exceptions the solver raises; each constructor carries the data
interpolated into the corresponding Python error message. -/
inductive SolverError where
  /-- Message `'Symbols {} in input are restricted and cannot be used.'` -/
  | restrictedSymbol (names : List String)
  /-- Message `'Values {} missing for equation {}: {}.'` (equation index). -/
  | valuesMissing (idx : Nat)
  /-- Message `'Equation {}: {} value check tolerance exceeded:: |{}| > {}.'` -/
  | toleranceExceeded (idx : Nat) (v tol : ℚ)
  /-- Message `'Indeterminant system:: Number of equations ({m}) {cmp} number of
  unknowns ({n}). To correct, {action} ({count}) errors in {vars} or adjust
  the input equations.'` -/
  | indeterminate (m n : Nat) (cmp action : String) (count : Nat) (vars : List String)
  /-- Exception `KeyError` from `self.combos[combo]` on an unregistered combination. -/
  | unknownCombo (c : String)
  /-- Exception `IndexError` from `self._equations[i]` / `self._partials[i]`. -/
  | indexError (i : Nat)
  /-- Exception `KeyError` from a string-keyed dict lookup (`var[k]`, `values[k]`,
  `df[k]`). -/
  | keyError (k : String)
  /-- Exception `TypeError` when a partial derivative fails to evaluate to a number
  at `values` (named by the variable of the partial). -/
  | evalError (k : String)
  /-- Exception `numpy.linalg.LinAlgError` from `np.linalg.inv` (singular or
  non-square unknown block). -/
  | linAlgError
  /-- Exception `TypeError` when a Python equation function cannot be evaluated on
  the supplied keyword arguments (equation index). -/
  | pyCallError (idx : Nat)
  /-- Message `'Equation has too many equal signs: {}'`. -/
  | malformedEquation (equation : List Char)
  /-- Message `'Failed to parse equation: {}'`. -/
  | parseError (equation : List Char)
  /-- Exception `UnboundLocalError` from reading `const[i]` before any assignment to
  `const` (pipeline, stage 0, `consts is not None`). -/
  | unboundLocalConst
  /-- Exception `KeyError` from indexing a string-keyed dict with the integer `i`
  (pipeline, `const[i]` at stage `i > 0`). -/
  | intKeyError (i : Nat)
deriving DecidableEq

/-- One row of the result `DataFrame` built at the end of `solve`.
`pct_error = none` models the non-finite sentinel (`inf` replaced by `NaN`,
or `NaN` from `0/0`) that arises exactly when `value = 0`; `solver` is the
stage tag added by the pipeline (absent, i.e. `none`, for a plain solve). -/
structure ResultRow where
  var : String
  value : ℚ
  error : ℚ
  pct_error : Option ℚ
  is_calc : Bool
  solver : Option Nat
deriving DecidableEq

/-- The result `DataFrame`: rows keyed by variable name. -/
abbrev Table := List ResultRow

/-- Column `100 * abs(error / value)`, with the division by zero producing the
non-finite sentinel (`inf`/`NaN`, both replaced by / equal to `NaN` after
`df.replace(inf, nan)`), modelled as `none`. -/
def pctOf (error value : ℚ) : Option ℚ :=
  if value = 0 then none else some (100 * |error / value|)

/-- Build the block of result rows for one variable class (`is_calc` is
constant per block: computed unknowns `true`, supplied knowns `false`). -/
def mkRows : List String → List ℚ → List ℚ → Bool → Table
  | v :: vs, x :: xs, e :: es, b =>
    ⟨v, x, e, pctOf e x, b, none⟩ :: mkRows vs xs es b
  | _, _, _, _ => []

/-- Row comparison by variable name, as used by `df.sort_values('var')`. -/
def rowLe (a b : ResultRow) : Prop := strLe a.var b.var

instance rowLe.decRel : DecidableRel rowLe :=
  fun a b => inferInstanceAs (Decidable (a.var.data ≤ b.var.data))

/-- Python `df.sort_values('var')`: stable sort of the rows by variable name. -/
def sortRows (t : Table) : Table :=
  List.insertionSort rowLe t

/-- Row lookup by variable name (series `df[k]` on the var-indexed frame). -/
def findRow (k : String) (t : Table) : Option ResultRow :=
  t.find? (fun r => r.var = k)

/-- The error column of `t` restricted to the variables `vs`, in order. -/
def errColumn (t : Table) (vs : List String) : List (Option ℚ) :=
  vs.map fun v => (findRow v t).map (fun r => r.error)

/-- The symbolic-expression-backed solver (`ErrorSolver`).  `partials` is
the cached parallel list of partial-derivative maps; `names` is consumed by
the constructor (`set_equations` applies `eq.subs(self.names)`). -/
structure SymSolver where
  equations : List Expr
  partials : List (Dict Expr)
  combos : Dict (List Nat)
  tol : ℚ

/-- The constructor `ErrorSolver.__init__`: substitutes `names` into every
parsed equation and caches the partial-derivative maps. -/
def mkSymSolver (equations : List Expr) (names : Dict String)
    (combos : Dict (List Nat)) (tol : ℚ) : SymSolver :=
  let eqs := equations.map (substVars names)
  ⟨eqs, eqs.map partialMap, combos, tol⟩

/-- The function-backed solver (`ErrorSolverPy`): equations and partial
derivatives are opaque callables `values ↦ number`, with `none` modelling a
call that raises (e.g. a missing keyword argument). -/
structure PySolver where
  equations : List (Dict ℚ → Option ℚ)
  partials : List (Dict (Dict ℚ → Option ℚ))
  combos : Dict (List Nat)
  tol : ℚ

/-- Effectful map over a list in the `Except` monad (a Python list
comprehension or loop whose body may raise), written as explicit
recursion. -/
def mapExcept {α β : Type} (f : α → Except SolverError β) :
    List α → Except SolverError (List β)
  | [] => .ok []
  | a :: rest =>
    match f a with
    | .error e => .error e
    | .ok b =>
      match mapExcept f rest with
      | .error e => .error e
      | .ok bs => .ok (b :: bs)

/-- Selection of a combination subset, common to `get_equations` and
`get_partials`: `combo = None` returns everything, otherwise
`[xs[i] for i in self.combos[combo]]` (with the `KeyError` / `IndexError`
of the source made explicit). -/
def selectCombo {α : Type} (xs : List α) (combos : Dict (List Nat))
    (combo : Option String) : Except SolverError (List α) :=
  match combo with
  | none => .ok xs
  | some c =>
    match combos.lookup c with
    | none => .error (.unknownCombo c)
    | some idxs =>
      mapExcept (fun i =>
        match xs.get? i with
        | some x => .ok x
        | none => .error (.indexError i)) idxs

/-- `ErrorSolver.get_equations`. -/
def getEquationsE (s : SymSolver) (combo : Option String) :
    Except SolverError (List Expr) :=
  selectCombo s.equations s.combos combo

/-- `ErrorSolver.get_partials`. -/
def getPartialsE (s : SymSolver) (combo : Option String) :
    Except SolverError (List (Dict Expr)) :=
  selectCombo s.partials s.combos combo

/-- `ErrorSolverPy.get_equations`. -/
def getEquationsPy (s : PySolver) (combo : Option String) :
    Except SolverError (List (Dict ℚ → Option ℚ)) :=
  selectCombo s.equations s.combos combo

/-- `ErrorSolverPy.get_partials`. -/
def getPartialsPy (s : PySolver) (combo : Option String) :
    Except SolverError (List (Dict (Dict ℚ → Option ℚ))) :=
  selectCombo s.partials s.combos combo

/-- `equation_vars` on the already-selected partial maps: the union of all
their key sets (a Python `set`; order is irrelevant because every consumer
sorts, and `dedup` keeps the membership semantics). -/
def eqVarsC {α : Type} (ps : List (Dict α)) : List String :=
  (ps.map keysOf).flatten.dedup

/-- `used_vars` on the already-selected partial maps: known-error variables
`err = var ∩ errors`, unknown-error variables `val = var ∩ values − err`,
each returned sorted (`return sorted(val), sorted(err)`). -/
def usedVarsC {α : Type} (ps : List (Dict α)) (values errors : Dict ℚ) :
    List String × List String :=
  let var := eqVarsC ps
  let errSet := var.filter fun v => (errors.lookup v).isSome
  let valSet := (var.filter fun v => (values.lookup v).isSome).filter
    fun v => v ∉ errSet
  (sortStrings valSet, sortStrings errSet)

/-- `_BaseErrorSolver.used_vars` for the expression-backed solver (resolves
the combination first, via `equation_vars`). -/
def usedVarsE (s : SymSolver) (values errors : Dict ℚ) (combo : Option String) :
    Except SolverError (List String × List String) :=
  match getPartialsE s combo with
  | .error e => .error e
  | .ok ps => .ok (usedVarsC ps values errors)

/-- The column-index dict `var = {x: i for i, x in enumerate(val + err)}`
looked up at `k` (`var[k]`); for the duplicate-free column lists this is
the index of `k` in the list, `none` modelling the `KeyError`. -/
def colIndex (cols : List String) (k : String) : Option Nat :=
  match cols with
  | [] => none
  | c :: rest => if c = k then some 0 else (colIndex rest k).map (· + 1)

/-- One row of the Jacobian fill loop
`for k, v in p.items(): j = var[k]; jac[i, j] = v.subs(values).evalf()`:
the row starts as zeros and each partial-map item writes its evaluated
derivative at the column index of its variable.  A variable absent from the
column map raises `KeyError`; a derivative that does not reduce to a number
raises when stored into the float array. -/
def fillRow {α : Type} (ev : α → Dict ℚ → Option ℚ) (values : Dict ℚ)
    (cols : List String) : Dict α → List ℚ → Except SolverError (List ℚ)
  | [], row => .ok row
  | (k, v) :: rest, row =>
    match colIndex cols k with
    | none => .error (.keyError k)
    | some j =>
      match ev v values with
      | none => .error (.evalError k)
      | some q => fillRow ev values cols rest (row.set j q)

/-- The closed-form Jacobian entry of the specification: the partial
derivative of the equation with respect to the column variable `k`
evaluated at `values` when `k` is a key of the partial map `p`, else `0`.
The fill loop `fillRow` is proved to realize this entry. -/
def jacEntry {α : Type} (ev : α → Dict ℚ → Option ℚ) (values : Dict ℚ)
    (p : Dict α) (k : String) : ℚ :=
  match p.lookup k with
  | some v => (ev v values).getD 0
  | none => 0

/-- The Jacobian fill loop over all selected partial maps (each row `i` is
written only from `partials[i]`, so the `np.zeros((n, m))` scatter loop is
equivalent to a per-row fill). -/
def jacobianRows {α : Type} (ev : α → Dict ℚ → Option ℚ) (values : Dict ℚ)
    (ps : List (Dict α)) (cols : List String) :
    Except SolverError (List (List ℚ)) :=
  mapExcept (fun p => fillRow ev values cols p (List.replicate cols.length 0)) ps

/-- Jacobian construction common to `ErrorSolver.jacobian` and
`ErrorSolverPy.jacobian` on the already-selected partial maps. -/
def jacobianC {α : Type} (ev : α → Dict ℚ → Option ℚ) (ps : List (Dict α))
    (values errors : Dict ℚ) : Except SolverError (List (List ℚ)) :=
  let (val, err) := usedVarsC ps values errors
  jacobianRows ev values ps (val ++ err)

/-- `ErrorSolver.jacobian`. -/
def jacobianE (s : SymSolver) (values errors : Dict ℚ) (combo : Option String) :
    Except SolverError (List (List ℚ)) :=
  match getPartialsE s combo with
  | .error e => .error e
  | .ok ps => jacobianC evalExpr ps values errors

/-- `ErrorSolverPy.jacobian`. -/
def jacobianPy (s : PySolver) (values errors : Dict ℚ) (combo : Option String) :
    Except SolverError (List (List ℚ)) :=
  match getPartialsPy s combo with
  | .error e => .error e
  | .ok ps => jacobianC (fun f d => f d) ps values errors

/-- Names that `parse_expr` turns into an atom of one of the restricted
classes `(sympy.NumberSymbol, sympy.I, sympy.zoo)` used by
`_check_restricted_symbols`.  This models the external `sympy` expression
engine: a bare variable name parses to such an atom exactly when it is one
of the names of the number symbols, the imaginary unit `I`, or the complex
infinity `zoo`. -/
def restrictedNames : List String :=
  ["Catalan", "E", "EulerGamma", "GoldenRatio", "I", "pi", "zoo"]

/-- The offending symbols collected by `_check_restricted_symbols`:
restricted atoms appearing among the value/error variable names, reported
as `sorted(map(str, inpt))`. -/
def offendingSymbols (values errors : Dict ℚ) : List String :=
  sortStrings (((keysOf values ++ keysOf errors).dedup).filter
    (· ∈ restrictedNames))

/-- `ErrorSolver._check_restricted_symbols`. -/
def checkRestrictedE (values errors : Dict ℚ) : Except SolverError Unit :=
  let inpt := offendingSymbols values errors
  if inpt.isEmpty then .ok () else .error (.restrictedSymbol inpt)

/-- The loop of `ErrorSolver._check_values`: evaluate each active equation
at `values`; unresolved free symbols and residuals beyond `tol` raise. -/
def checkValuesAux (tol : ℚ) (values : Dict ℚ) :
    Nat → List Expr → Except SolverError Unit
  | _, [] => .ok ()
  | i, eq :: rest =>
    match evalExpr eq values with
    | none => .error (.valuesMissing i)
    | some v =>
      if |v| > tol then .error (.toleranceExceeded i v tol)
      else checkValuesAux tol values (i + 1) rest

/-- The loop of `ErrorSolverPy._check_values`: call each active equation
function on `values` (`eq(**values)`) and compare against `tol`. -/
def checkValuesPyAux (tol : ℚ) (values : Dict ℚ) :
    Nat → List (Dict ℚ → Option ℚ) → Except SolverError Unit
  | _, [] => .ok ()
  | i, eq :: rest =>
    match eq values with
    | none => .error (.pyCallError i)
    | some v =>
      if |v| > tol then .error (.toleranceExceeded i v tol)
      else checkValuesPyAux tol values (i + 1) rest

/-- The body of `_BaseErrorSolver._check_determinancy` after `used_vars`
and `get_equations` have been resolved: raise iff the number `n` of
unknown-error variables differs from the number `m` of active equations,
with the message data of the source (`'>' / 'remove' / err` when `m > n`,
`'<' / 'add' / val` when `m < n`, and the count `abs(n - m)`). -/
def checkDeterminancyCore (val err : List String) (nEqs : Nat) :
    Except SolverError Unit :=
  let n := val.length
  let m := nEqs
  if n ≠ m then
    if m > n then .error (.indeterminate m n ">" "remove" (m - n) err)
    else .error (.indeterminate m n "<" "add" (n - m) val)
  else .ok ()

/-- `_check_determinancy` for the expression-backed solver. -/
def checkDeterminancyE (s : SymSolver) (values errors : Dict ℚ)
    (combo : Option String) : Except SolverError Unit :=
  match getPartialsE s combo with
  | .error e => .error e
  | .ok ps =>
    match getEquationsE s combo with
    | .error e => .error e
    | .ok eqs =>
      let (val, err) := usedVarsC ps values errors
      checkDeterminancyCore val err eqs.length

/-- `_check_determinancy` for the function-backed solver. -/
def checkDeterminancyPy (s : PySolver) (values errors : Dict ℚ)
    (combo : Option String) : Except SolverError Unit :=
  match getPartialsPy s combo with
  | .error e => .error e
  | .ok ps =>
    match getEquationsPy s combo with
    | .error e => .error e
    | .ok eqs =>
      let (val, err) := usedVarsC ps values errors
      checkDeterminancyCore val err eqs.length

/-- `ErrorSolver.check`: restricted symbols, then residuals, then
determinacy, failing fast. -/
def checkE (s : SymSolver) (values errors : Dict ℚ) (combo : Option String) :
    Except SolverError Unit :=
  match checkRestrictedE values errors with
  | .error e => .error e
  | .ok _ =>
    match getEquationsE s combo with
    | .error e => .error e
    | .ok eqs =>
      match checkValuesAux s.tol values 0 eqs with
      | .error e => .error e
      | .ok _ => checkDeterminancyE s values errors combo

/-- `ErrorSolverPy.check`: residuals then determinacy.  The source runs no
restricted-symbol check for the function-backed solver. -/
def checkPy (s : PySolver) (values errors : Dict ℚ) (combo : Option String) :
    Except SolverError Unit :=
  match getEquationsPy s combo with
  | .error e => .error e
  | .ok eqs =>
    match checkValuesPyAux s.tol values 0 eqs with
    | .error e => .error e
    | .ok _ => checkDeterminancyPy s values errors combo

/-- The list comprehension `[values[k] for k in df['var']]` building the
value column; a variable without a value raises `KeyError`. -/
def lookupAll (values : Dict ℚ) : List String → Except SolverError (List ℚ)
  | [] => .ok []
  | k :: rest =>
    match values.lookup k with
    | none => .error (.keyError k)
    | some v =>
      match lookupAll values rest with
      | .error e => .error e
      | .ok vs => .ok (v :: vs)

/-- Column slice `jac[:, :n]` (the unknown block `ju`). -/
def takeCols (n : Nat) (jac : List (List ℚ)) : List (List ℚ) :=
  jac.map fun r => r.take n

/-- Column slice `jac[:, n:n+m]` (the known block `jk`). -/
def sliceCols (n m : Nat) (jac : List (List ℚ)) : List (List ℚ) :=
  jac.map fun r => (r.drop n).take m

/-- The error vector of the listed variables:
`[errors[k] for k in err]` (the lookup cannot fail there since
`err ⊆ keys errors` by construction) and likewise `const.get(k, 0)`, whose
explicit default is the same `getD 0`. -/
def errVec (d : Dict ℚ) (vars : List String) : List ℚ :=
  vars.map fun k => (d.lookup k).getD 0

/-- The vector computation of `_BaseErrorSolver.solve` (source lines
116–157) given the Jacobian: slice `ju`/`jk`, take `|Ju⁻¹|`, `|Ju|`,
`|Jk|`, branch on `const` (Python truthiness: a non-empty dict) and
`stdev`, and apply the final `** 0.5` of stdev mode (the abstract `sqrt`).
Returns the pair (unknown errors `xu`, known errors `xk`). -/
def solveVectors {α : Type} (ps : List (Dict α))
    (values errors const : Dict ℚ) (stdev : Bool) (sqrt : ℚ → ℚ)
    (jac : List (List ℚ)) : List ℚ × List ℚ :=
  let (val, err) := usedVarsC ps values errors
  let n := val.length
  let m := err.length
  let xk₀ := errVec errors err
  let ju := takeCols n jac
  let jk := sliceCols n m jac
  let jui := matAbs (matInvN n ju)
  let juA := matAbs ju
  let jkA := matAbs jk
  let pair :=
    if const.isEmpty then
      if stdev then (matVec jui (matVec jkA (vecSq xk₀)), vecSq xk₀)
      else (matVec jui (matVec jkA (vecAbs xk₀)), vecAbs xk₀)
    else
      let ck := errVec const err
      let cu := errVec const val
      if stdev then
        let xkc := vecAdd (vecSq xk₀) (vecSq ck)
        (matVec jui (vecAdd (matVec jkA xkc) (matVec juA (vecSq cu))), xkc)
      else
        let xka := vecAdd (vecAbs xk₀) (vecAbs ck)
        (matVec jui (vecAdd (matVec jkA xka) (matVec juA (vecAbs cu))), xka)
  (if stdev then pair.1.map sqrt else pair.1,
    if stdev then pair.2.map sqrt else pair.2)

/-- The body of `_BaseErrorSolver.solve` after the optional `check` and the
combination resolution (source lines 116–171): build the Jacobian, check
that the unknown block is square and non-singular (`np.linalg.inv`),
compute the error vectors, and assemble the sorted result table. -/
def solveCore {α : Type} (ev : α → Dict ℚ → Option ℚ) (ps : List (Dict α))
    (values errors const : Dict ℚ) (stdev : Bool) (sqrt : ℚ → ℚ) :
    Except SolverError Table :=
  let (val, err) := usedVarsC ps values errors
  let n := val.length
  match jacobianRows ev values ps (val ++ err) with
  | .error e => .error e
  | .ok jac =>
    if (takeCols n jac).length = n then
      if detN n (takeCols n jac) = 0 then .error .linAlgError
      else
        let (xu, xk) := solveVectors ps values errors const stdev sqrt jac
        match lookupAll values (val ++ err) with
        | .error e => .error e
        | .ok vals =>
          .ok (sortRows (mkRows val (vals.take n) xu true ++
            mkRows err (vals.drop n) xk false))
    else .error .linAlgError

/-- `ErrorSolver.solve` (via `_BaseErrorSolver.solve`). -/
def solveE (s : SymSolver) (values errors const : Dict ℚ)
    (combo : Option String) (check stdev : Bool) (sqrt : ℚ → ℚ) :
    Except SolverError Table :=
  match (if check then checkE s values errors combo else .ok ()) with
  | .error e => .error e
  | .ok _ =>
    match getPartialsE s combo with
    | .error e => .error e
    | .ok ps => solveCore evalExpr ps values errors const stdev sqrt

/-- `ErrorSolverPy.solve` (via `_BaseErrorSolver.solve`). -/
def solvePy (s : PySolver) (values errors const : Dict ℚ)
    (combo : Option String) (check stdev : Bool) (sqrt : ℚ → ℚ) :
    Except SolverError Table :=
  match (if check then checkPy s values errors combo else .ok ()) with
  | .error e => .error e
  | .ok _ =>
    match getPartialsPy s combo with
    | .error e => .error e
    | .ok ps => solveCore (fun f d => f d) ps values errors const stdev sqrt

/-- Python `equation.split('=')` on the character list of the string. -/
def splitEq : List Char → List (List Char)
  | [] => [[]]
  | c :: cs =>
    if c = '=' then [] :: splitEq cs
    else
      match splitEq cs with
      | t :: ts => (c :: t) :: ts
      | [] => [[c]]

/-- `ErrorSolver._set_equal_to_zero`: one `=` rewrites to the zero form
`'({})-({})'`, none returns the string as-is, more raise. -/
def setEqualToZero (equation : List Char) : Except SolverError (List Char) :=
  match splitEq equation with
  | [_] => .ok equation
  | [s0, s1] => .ok ('(' :: s0 ++ ')' :: '-' :: '(' :: s1 ++ [')'])
  | _ => .error (.malformedEquation equation)

/-- `ErrorSolver._parse_equation`: zero-form rewrite followed by
`parse_expr`, whose failure is re-raised naming the original string.  The
external `sympy` parser is a parameter `parse` (`none` models a raised
parse exception). -/
def parseEquation (parse : List Char → Option Expr) (equation : List Char) :
    Except SolverError Expr :=
  match setEqualToZero equation with
  | .error e => .error e
  | .ok z =>
    match parse z with
    | none => .error (.parseError equation)
    | some e => .ok e

/-- A solver of either representation, as stored in
`SolverPipeline.solvers` (duck typing in the source). -/
inductive AnySolver where
  | sym : SymSolver → AnySolver
  | py : PySolver → AnySolver

/-- `solver.solve(...)` dispatched on the representation. -/
def solveAny (sv : AnySolver) (values errors const : Dict ℚ)
    (combo : Option String) (check stdev : Bool) (sqrt : ℚ → ℚ) :
    Except SolverError Table :=
  match sv with
  | .sym s => solveE s values errors const combo check stdev sqrt
  | .py s => solvePy s values errors const combo check stdev sqrt

/-- `SolverPipeline` state: solvers chained in sequence, the link dicts
(`from_key → to_key`) between consecutive stages, and the optional
per-stage combination names. -/
structure Pipeline where
  solvers : List AnySolver
  links : List (Dict String)
  combos : Option (List (Option String))

/-- Replace the value stored under key `k` (keys are unique in a Python
dict, so replacing every occurrence is the same operation). -/
def dictReplace {α : Type} (k : String) (v : α) : Dict α → Dict α
  | [] => []
  | (k₁, v₁) :: rest =>
    if k₁ = k then (k, v) :: dictReplace k v rest
    else (k₁, v₁) :: dictReplace k v rest

/-- Python dict assignment `d[k] = v`: replace the value of an existing
key in place, else append the new pair (insertion order preserved). -/
def dictSet {α : Type} (d : Dict α) (k : String) (v : α) : Dict α :=
  if (d.lookup k).isSome then dictReplace k v d
  else d ++ [(k, v)]

/-- The link-override loop of `SolverPipeline.solve`:
`for k, x in self.links[i-1].items(): err[x] = df[k]` where `df` is the
error column of the previous stage's result; a `from_key` absent from that
result raises `KeyError`. -/
def applyLinks (prev : Table) : Dict String → Dict ℚ → Except SolverError (Dict ℚ)
  | [], err => .ok err
  | (k, x) :: rest, err =>
    match findRow k prev with
    | none => .error (.keyError k)
    | some row => applyLinks prev rest (dictSet err x row.error)

/-- `df['solver'] = [i+1] * df.shape[0]`: tag every row with the stage
number. -/
def tagSolver (i : Nat) (t : Table) : Table :=
  t.map fun r => { r with solver := some i }

/-- The `const` binding of the stage loop:
`const = {} if consts is None else const[i]`.  The source reads the
loop-local `const` (not the parameter `consts`): at stage 0 it is unbound
(`UnboundLocalError`), and at a later stage it would index the previous
stage's string-keyed `const` dict with the integer `i`, a guaranteed
`KeyError`; the value of `consts` is never read, so only `consts is None`
enters the model. -/
def stageConst (constsIsNone : Bool) (constPrev : Option (Dict ℚ)) (i : Nat) :
    Except SolverError (Dict ℚ) :=
  if constsIsNone then .ok []
  else
    match constPrev with
    | none => .error SolverError.unboundLocalConst
    | some _ => .error (.intKeyError i)

/-- The per-stage combination selection
`combo = None if self.combos is None else self.combos[i]`. -/
def stageCombo (p : Pipeline) (i : Nat) : Option String :=
  match p.combos with
  | none => none
  | some cs => cs.getD i none

/-- The per-stage errors dict: stage 0 uses `errors[0]` as-is, a later
stage copies `errors[i]` and applies the link overrides from the previous
stage's result table. -/
def stageErrors (p : Pipeline) (errors : List (Dict ℚ))
    (results : List Table) (i : Nat) : Except SolverError (Dict ℚ) :=
  if i = 0 then .ok (errors.getD 0 [])
  else
    applyLinks ((results.getLast?).getD []) (p.links.getD (i - 1) [])
      (errors.getD i [])

/-- The stage loop of `SolverPipeline.solve`.  Out-of-range indexing of
the `values`, `errors`, `links` and `combos` lists (an `IndexError` for a
caller passing mismatched list lengths) is not modelled; indices are
assumed in range. -/
def runFrom (p : Pipeline) (values errors : List (Dict ℚ))
    (constsIsNone : Bool) (check stdev : Bool) (sqrt : ℚ → ℚ) :
    List AnySolver → Nat → List Table → Option (Dict ℚ) →
    Except SolverError (List Table)
  | [], _, results, _ => .ok results
  | sv :: rest, i, results, constPrev =>
    match stageConst constsIsNone constPrev i with
    | .error e => .error e
    | .ok const =>
      match stageErrors p errors results i with
      | .error e => .error e
      | .ok errDict =>
        match solveAny sv (values.getD i []) errDict const (stageCombo p i)
            check stdev sqrt with
        | .error e => .error e
        | .ok df =>
          runFrom p values errors constsIsNone check stdev sqrt rest (i + 1)
            (results ++ [tagSolver (i + 1) df]) (some const)

/-- `SolverPipeline.solve`: run the stages, then `pd.concat(results)`. -/
def pipelineSolve (p : Pipeline) (values errors : List (Dict ℚ))
    (consts : Option (List (Dict ℚ))) (check stdev : Bool) (sqrt : ℚ → ℚ) :
    Except SolverError Table :=
  match runFrom p values errors consts.isNone check stdev sqrt p.solvers 0 [] none with
  | .error e => .error e
  | .ok results => .ok results.flatten

/-- A heap of Python dict objects, used to make mutation and aliasing
observable for the frame-effect analysis of the pipeline: a dict object is
an address into the store, `errors[i].copy()` allocates a fresh cell, and
`err[x] = v` mutates the cell in place. -/
abbrev Store := List (Dict ℚ)

/-- Dereference a dict address. -/
def storeRead (σ : Store) (a : Nat) : Dict ℚ := (σ.get? a).getD []

/-- The link-override loop acting on the store: every `err[x] = df[k]`
mutates the dict object at address `a` in place. -/
def applyLinksStore (prev : Table) (a : Nat) :
    Dict String → Store → Store × Except SolverError Unit
  | [], σ => (σ, .ok ())
  | (k, x) :: rest, σ =>
    match findRow k prev with
    | none => (σ, .error (.keyError k))
    | some row =>
      applyLinksStore prev a rest (σ.set a (dictSet (storeRead σ a) x row.error))

/-- The stage loop of `SolverPipeline.solve` over the store: the caller's
per-stage `values` and `errors` dicts are passed as addresses.  Stage 0
aliases `errors[0]` (`err = errors[i]`, no copy, but also no writes since
no links apply); stage `i > 0` allocates a fresh copy (`errors[i].copy()`)
and applies the link overrides to the copy.  The solver's `solve` is the
pure function `solveAny` of this file: its source reads but never assigns
into its argument dicts or its receiver, which the pure embedding reflects.
The final store is returned whether the run succeeds or fails. -/
def runFromStore (p : Pipeline) (valuesA errorsA : List Nat)
    (constsIsNone : Bool) (check stdev : Bool) (sqrt : ℚ → ℚ) :
    List AnySolver → Nat → List Table → Option (Dict ℚ) → Store →
    Store × Except SolverError (List Table)
  | [], _, results, _, σ => (σ, .ok results)
  | sv :: rest, i, results, constPrev, σ =>
    match stageConst constsIsNone constPrev i with
    | .error e => (σ, .error e)
    | .ok const =>
      let combo := stageCombo p i
      if i = 0 then
        let errDict := storeRead σ (errorsA.getD 0 0)
        match solveAny sv (storeRead σ (valuesA.getD i 0)) errDict const combo
            check stdev sqrt with
        | .error e => (σ, .error e)
        | .ok df =>
          runFromStore p valuesA errorsA constsIsNone check stdev sqrt rest
            (i + 1) (results ++ [tagSolver (i + 1) df]) (some const) σ
      else
        let a := σ.length
        let σ₁ := σ ++ [storeRead σ (errorsA.getD i 0)]
        match applyLinksStore ((results.getLast?).getD []) a
            (p.links.getD (i - 1) []) σ₁ with
        | (σ₂, .error e) => (σ₂, .error e)
        | (σ₂, .ok _) =>
          match solveAny sv (storeRead σ₂ (valuesA.getD i 0)) (storeRead σ₂ a)
              const combo check stdev sqrt with
          | .error e => (σ₂, .error e)
          | .ok df =>
            runFromStore p valuesA errorsA constsIsNone check stdev sqrt rest
              (i + 1) (results ++ [tagSolver (i + 1) df]) (some const) σ₂

/-- `SolverPipeline.solve` over the store. -/
def pipelineSolveStore (p : Pipeline) (valuesA errorsA : List Nat)
    (constsIsNone : Bool) (check stdev : Bool) (sqrt : ℚ → ℚ) (σ : Store) :
    Store × Except SolverError Table :=
  match runFromStore p valuesA errorsA constsIsNone check stdev sqrt
      p.solvers 0 [] none σ with
  | (σ', .error e) => (σ', .error e)
  | (σ', .ok results) => (σ', .ok results.flatten)

instance instDecidableEqExceptSE {ε α : Type} [DecidableEq ε] [DecidableEq α] :
    DecidableEq (Except ε α)
  | .error e, .error f =>
    if h : e = f then .isTrue (by rw [h])
    else .isFalse (by intro hh; cases hh; exact h rfl)
  | .error _, .ok _ => .isFalse (by intro hh; cases hh)
  | .ok _, .error _ => .isFalse (by intro hh; cases hh)
  | .ok a, .ok b =>
    if h : a = b then .isTrue (by rw [h])
    else .isFalse (by intro hh; cases hh; exact h rfl)

/-! ### Concrete sample systems (used to instantiate the claim theorems) -/

/-- A one-equation system `x - y = 0`. -/
def sampleSym : SymSolver :=
  mkSymSolver [Expr.sub (.var "x") (.var "y")] [] [] (1/100)

/-- Values satisfying `sampleSym`. -/
def sampleValues : Dict ℚ := [("x", 2), ("y", 2)]

/-- A known error for `y` only, leaving `x` unknown. -/
def sampleErrors : Dict ℚ := [("y", 1/10)]

/-- The result table of `sampleSym.solve(sampleValues, sampleErrors)`. -/
def sampleTable : Table :=
  [⟨"x", 2, 1/10, some 5, true, none⟩, ⟨"y", 2, 1/10, some 5, false, none⟩]

/-- A second one-equation system `a - b = 0` for the pipeline examples. -/
def sampleSym2 : SymSolver :=
  mkSymSolver [Expr.sub (.var "a") (.var "b")] [] [] (1/100)

/-- A two-stage pipeline whose link routes the solved error of `x` into
the *non-variable* name `bogus` of the second stage. -/
def samplePipeline : Pipeline :=
  ⟨[.sym sampleSym, .sym sampleSym2], [[("x", "bogus")]], none⟩

/-- Per-stage values for `samplePipeline`. -/
def sampleValuesList : List (Dict ℚ) := [sampleValues, [("a", 3), ("b", 3)]]

/-- Per-stage errors for `samplePipeline`. -/
def sampleErrorsList : List (Dict ℚ) := [sampleErrors, [("b", 1/20)]]

/-- A function-backed system `x - 1 = 0` (partial `d/dx = 1`). -/
def samplePyR : PySolver :=
  ⟨[fun d => (d.lookup "x").map (· - 1)], [[("x", fun _ => some 1)]], [], 1/100⟩

/-- A function-backed copy of `sampleSym` (`x - y = 0`). -/
def samplePy : PySolver :=
  ⟨[fun d => do pure ((← d.lookup "x") - (← d.lookup "y"))],
    [[("x", fun _ => some 1), ("y", fun _ => some (-1))]], [], 1/100⟩

/-! ### General lemmas about the embedding -/

theorem lookup_isSome_iff {α : Type} (d : Dict α) (v : String) :
    (d.lookup v).isSome = true ↔ v ∈ keysOf d := by
  induction d with
  | nil => simp [List.lookup, keysOf]
  | cons p rest ih =>
    obtain ⟨k, x⟩ := p
    by_cases h : v = k
    · subst h; simp [List.lookup, keysOf]
    · have hbeq : (v == k) = false := by simp [h]
      simp only [List.lookup, hbeq]
      rw [ih]
      simp [keysOf, h]

theorem strLe_iff (a b : String) : strLe a b ↔ a ≤ b := by
  constructor
  · intro h; exact String.le_iff_toList_le.mpr h
  · intro h; exact String.le_iff_toList_le.mp h

instance strLe.total : IsTotal String strLe :=
  ⟨fun a b => (le_total a b).imp (strLe_iff a b).mpr (strLe_iff b a).mpr⟩

instance strLe.trans : IsTrans String strLe :=
  ⟨fun a b c hab hbc =>
    (strLe_iff a c).mpr (le_trans ((strLe_iff a b).mp hab) ((strLe_iff b c).mp hbc))⟩

theorem mem_sortStrings {v : String} {l : List String} :
    v ∈ sortStrings l ↔ v ∈ l :=
  (List.perm_insertionSort _ l).mem_iff

theorem sorted_sortStrings (l : List String) :
    List.Sorted (· ≤ ·) (sortStrings l) :=
  (List.sorted_insertionSort _ l).imp fun h => (strLe_iff _ _).mp h

theorem nodup_sortStrings {l : List String} (h : l.Nodup) :
    (sortStrings l).Nodup :=
  (List.perm_insertionSort _ l).nodup_iff.mpr h

theorem eqVarsC_nodup {α : Type} (ps : List (Dict α)) : (eqVarsC ps).Nodup :=
  List.nodup_dedup _

theorem usedVarsC_err_mem {α : Type} (ps : List (Dict α))
    (values errors : Dict ℚ) (v : String) :
    v ∈ (usedVarsC ps values errors).2 ↔ v ∈ eqVarsC ps ∧ v ∈ keysOf errors := by
  simp only [usedVarsC, mem_sortStrings, List.mem_filter, lookup_isSome_iff]

theorem usedVarsC_val_mem {α : Type} (ps : List (Dict α))
    (values errors : Dict ℚ) (v : String) :
    v ∈ (usedVarsC ps values errors).1 ↔
      v ∈ eqVarsC ps ∧ v ∈ keysOf values ∧
        v ∉ (usedVarsC ps values errors).2 := by
  simp only [usedVarsC, mem_sortStrings, List.mem_filter, lookup_isSome_iff,
    decide_eq_true_eq]
  tauto

theorem splitEq_cons_eq (cs : List Char) :
    splitEq ('=' :: cs) = [] :: splitEq cs := by
  conv_lhs => unfold splitEq
  rw [if_pos rfl]

theorem splitEq_cons_ne (c : Char) (cs : List Char) (h : c ≠ '=') :
    splitEq (c :: cs) =
      match splitEq cs with
      | t :: ts => (c :: t) :: ts
      | [] => [[c]] := by
  conv_lhs => unfold splitEq
  rw [if_neg h]

theorem usedVarsC_val_nodup {α : Type} (ps : List (Dict α))
    (values errors : Dict ℚ) : (usedVarsC ps values errors).1.Nodup :=
  nodup_sortStrings (((eqVarsC_nodup ps).filter _).filter _)

theorem usedVarsC_err_nodup {α : Type} (ps : List (Dict α))
    (values errors : Dict ℚ) : (usedVarsC ps values errors).2.Nodup :=
  nodup_sortStrings ((eqVarsC_nodup ps).filter _)

theorem usedVarsC_disjoint {α : Type} (ps : List (Dict α))
    (values errors : Dict ℚ) (v : String)
    (hv : v ∈ (usedVarsC ps values errors).1) :
    v ∉ (usedVarsC ps values errors).2 :=
  ((usedVarsC_val_mem ps values errors v).mp hv).2.2

/-! ### Lemmas about equation-string splitting -/

theorem splitEq_ne_nil (l : List Char) : splitEq l ≠ [] := by
  cases l with
  | nil => simp [splitEq]
  | cons c cs =>
    unfold splitEq
    split
    · simp
    · cases h : splitEq cs <;> simp

theorem splitEq_length (l : List Char) :
    (splitEq l).length = l.count '=' + 1 := by
  induction l with
  | nil => simp [splitEq]
  | cons c cs ih =>
    by_cases h : c = '='
    · subst h
      rw [splitEq_cons_eq]
      simp [List.count_cons, ih]
    · rw [splitEq_cons_ne c cs h]
      cases hs : splitEq cs with
      | nil => exact absurd hs (splitEq_ne_nil cs)
      | cons t ts =>
        have hlen := ih
        rw [hs] at hlen
        simp only [List.length_cons] at hlen ⊢
        simp [List.count_cons, h, Nat.succ_inj.mp hlen]

theorem splitEq_of_no_eq (l : List Char) (h : '=' ∉ l) : splitEq l = [l] := by
  induction l with
  | nil => simp [splitEq]
  | cons c cs ih =>
    simp only [List.mem_cons, not_or] at h
    rw [splitEq_cons_ne c cs (Ne.symm h.1), ih h.2]

theorem splitEq_append (s0 s1 : List Char) (h : '=' ∉ s0) :
    splitEq (s0 ++ '=' :: s1) = s0 :: splitEq s1 := by
  induction s0 with
  | nil => simp [splitEq_cons_eq]
  | cons c cs ih =>
    simp only [List.mem_cons, not_or] at h
    rw [List.cons_append, splitEq_cons_ne c _ (Ne.symm h.1), ih h.2]

/-! ### Lemmas about the Jacobian fill loop -/

theorem lookup_eq_none_iff {α : Type} (d : Dict α) (v : String) :
    d.lookup v = none ↔ v ∉ keysOf d := by
  rw [← lookup_isSome_iff]
  cases d.lookup v <;> simp

theorem freeVars_nodup (e : Expr) : (freeVars e).Nodup := by
  induction e with
  | num q => simp [freeVars]
  | var s => simp [freeVars]
  | add a b iha ihb => exact List.nodup_dedup _
  | sub a b iha ihb => exact List.nodup_dedup _
  | mul a b iha ihb => exact List.nodup_dedup _
  | neg a ih => exact ih
  | pow a n ih => exact ih

theorem keysOf_partialMap (e : Expr) : keysOf (partialMap e) = freeVars e := by
  simp [keysOf, partialMap, List.map_map, Function.comp_def]

theorem replicate_get? (n : Nat) (a : ℚ) (j : Nat) (h : j < n) :
    (List.replicate n a).get? j = some a := by
  rw [List.get?_eq_getElem?, List.getElem?_replicate, if_pos h]

theorem mapExcept_ok_length {α β : Type} {f : α → Except SolverError β} :
    ∀ {l : List α} {out : List β}, mapExcept f l = .ok out →
      out.length = l.length := by
  intro l
  induction l with
  | nil =>
    intro out h
    unfold mapExcept at h
    injection h with h
    subst h
    rfl
  | cons a rest ih =>
    intro out h
    unfold mapExcept at h
    cases hf : f a <;> rw [hf] at h
    · simp at h
    · cases hm : mapExcept f rest <;> rw [hm] at h
      · simp at h
      · rename_i b bs
        dsimp only at h
        injection h with h
        subst h
        simp [ih hm]

theorem mapExcept_ok_fwd {α β : Type} {f : α → Except SolverError β} :
    ∀ {l : List α} {out : List β}, mapExcept f l = .ok out →
    ∀ i x, l.get? i = some x → ∃ y, out.get? i = some y ∧ f x = .ok y := by
  intro l
  induction l with
  | nil => intro out h i x hx; simp at hx
  | cons a rest ih =>
    intro out h i x hx
    unfold mapExcept at h
    cases hf : f a <;> rw [hf] at h
    · simp at h
    · cases hm : mapExcept f rest <;> rw [hm] at h
      · simp at h
      · rename_i b bs
        dsimp only at h
        injection h with h
        subst h
        cases i with
        | zero =>
          simp only [List.get?] at hx
          injection hx with hx
          subst hx
          exact ⟨b, rfl, hf⟩
        | succ i => exact ih hm i x hx

theorem mapExcept_ok_bwd {α β : Type} {f : α → Except SolverError β} :
    ∀ {l : List α} {out : List β}, mapExcept f l = .ok out →
    ∀ i y, out.get? i = some y → ∃ x, l.get? i = some x ∧ f x = .ok y := by
  intro l
  induction l with
  | nil =>
    intro out h i y hy
    unfold mapExcept at h
    injection h with h
    subst h
    simp at hy
  | cons a rest ih =>
    intro out h i y hy
    unfold mapExcept at h
    cases hf : f a <;> rw [hf] at h
    · simp at h
    · cases hm : mapExcept f rest <;> rw [hm] at h
      · simp at h
      · rename_i b bs
        dsimp only at h
        injection h with h
        subst h
        cases i with
        | zero =>
          simp only [List.get?] at hy
          injection hy with hy
          subst hy
          exact ⟨a, rfl, hf⟩
        | succ i => exact ih hm i y hy

theorem selectCombo_mem {α : Type} {xs : List α} {combos : Dict (List Nat)}
    {combo : Option String} {out : List α}
    (h : selectCombo xs combos combo = .ok out) : ∀ x ∈ out, x ∈ xs := by
  intro x hx
  unfold selectCombo at h
  cases combo with
  | none =>
    injection h with h
    subst h
    exact hx
  | some c =>
    dsimp only at h
    cases hl : combos.lookup c <;> rw [hl] at h
    · simp at h
    · rename_i idxs
      dsimp only at h
      obtain ⟨i, hi⟩ := List.get?_of_mem hx
      obtain ⟨n, hn, hfn⟩ := mapExcept_ok_bwd h i x hi
      cases hg : xs.get? n <;> rw [hg] at hfn
      · simp at hfn
      · rename_i y
        dsimp only at hfn
        injection hfn with hfn
        subst hfn
        exact List.get?_mem hg

theorem colIndex_spec {cols : List String} {k : String} :
    ∀ {j : Nat}, colIndex cols k = some j →
      j < cols.length ∧ cols.get? j = some k := by
  induction cols with
  | nil => intro j h; simp [colIndex] at h
  | cons c rest ih =>
    intro j h
    unfold colIndex at h
    by_cases hc : c = k
    · rw [if_pos hc] at h
      injection h with h
      subst h
      simp [hc]
    · rw [if_neg hc] at h
      cases hr : colIndex rest k <;> rw [hr] at h
      · simp at h
      · rename_i j'
        simp only [Option.map_some'] at h
        injection h with h
        subst h
        obtain ⟨h1, h2⟩ := ih hr
        exact ⟨by simpa using Nat.succ_lt_succ h1, by simpa using h2⟩

theorem fillRow_ok_length {α : Type} {ev : α → Dict ℚ → Option ℚ}
    {values : Dict ℚ} {cols : List String} :
    ∀ {p : Dict α} {row row' : List ℚ},
      fillRow ev values cols p row = .ok row' → row'.length = row.length := by
  intro p
  induction p with
  | nil =>
    intro row row' h
    unfold fillRow at h
    injection h with h
    subst h
    rfl
  | cons kv rest ih =>
    obtain ⟨k, v⟩ := kv
    intro row row' h
    unfold fillRow at h
    cases hc : colIndex cols k <;> rw [hc] at h
    · simp at h
    · rename_i j
      cases he : ev v values <;> rw [he] at h
      · simp at h
      · rename_i q
        dsimp only at h
        have := ih h
        rw [List.length_set] at this
        exact this

theorem get?_some_lt {β : Type} {l : List β} {j : Nat} {x : β}
    (h : l.get? j = some x) : j < l.length := by
  by_contra hh
  rw [List.get?_eq_none.mpr (Nat.le_of_not_lt hh)] at h
  exact Option.noConfusion h

theorem fillRow_ok_get {α : Type} {ev : α → Dict ℚ → Option ℚ}
    {values : Dict ℚ} {cols : List String} (hnd : cols.Nodup) :
    ∀ {p : Dict α} {row row' : List ℚ}, (keysOf p).Nodup →
      row.length = cols.length →
      fillRow ev values cols p row = .ok row' →
      ∀ j k, cols.get? j = some k →
        row'.get? j =
          match p.lookup k with
          | some v => some ((ev v values).getD 0)
          | none => row.get? j := by
  intro p
  induction p with
  | nil =>
    intro row row' _ _ h j k _
    unfold fillRow at h
    injection h with h
    subst h
    simp [List.lookup]
  | cons kv rest ih =>
    obtain ⟨k₀, v₀⟩ := kv
    intro row row' hpnd hlen h j k hjk
    unfold fillRow at h
    cases hc : colIndex cols k₀ <;> rw [hc] at h
    · simp at h
    · rename_i j₀
      cases he : ev v₀ values <;> rw [he] at h
      · simp at h
      · rename_i q₀
        dsimp only at h
        simp only [keysOf, List.map_cons, List.nodup_cons] at hpnd
        have hpnd' : (keysOf rest).Nodup := hpnd.2
        have hk₀ : k₀ ∉ keysOf rest := hpnd.1
        have hlen' : (row.set j₀ q₀).length = cols.length := by
          rw [List.length_set]; exact hlen
        have hrec := ih hpnd' hlen' h j k hjk
        obtain ⟨hj₀lt, hj₀get⟩ := colIndex_spec hc
        by_cases hkk : k = k₀
        · subst hkk
          have hj : j = j₀ :=
            List.get?_inj (get?_some_lt hjk) hnd (hjk.trans hj₀get.symm)
          subst hj
          have hnone : rest.lookup k = none := (lookup_eq_none_iff rest k).mpr hk₀
          rw [hnone] at hrec
          simp only [List.lookup, beq_self_eq_true]
          rw [hrec, List.get?_set_eq, he]
          have : row.get? j = some ((row.get ⟨j, by rw [hlen]; exact hj₀lt⟩)) :=
            List.get?_eq_get _
          rw [this]
          rfl
        · have hbeq : (k == k₀) = false := by simp [hkk]
          simp only [List.lookup, hbeq]
          rw [hrec]
          cases hl : rest.lookup k
          · have hjne : j₀ ≠ j := by
              intro hh
              subst hh
              rw [hjk] at hj₀get
              injection hj₀get with hj₀get
              exact hkk hj₀get
            rw [List.get?_set_ne _ _ hjne]
          · rfl

/-- Closed-form characterization of a successfully built Jacobian: row `i`
corresponds to partial map `i`, has one column per classified variable, and
holds the evaluated derivative where the column variable is a key of the
partial map and `0` elsewhere. -/
theorem jacobianRows_ok_spec {α : Type} {ev : α → Dict ℚ → Option ℚ}
    {values : Dict ℚ} {ps : List (Dict α)} {cols : List String}
    {jac : List (List ℚ)} (hnd : cols.Nodup)
    (hpnd : ∀ p ∈ ps, (keysOf p).Nodup)
    (h : jacobianRows ev values ps cols = .ok jac) :
    jac.length = ps.length ∧
    ∀ i p, ps.get? i = some p → ∃ row, jac.get? i = some row ∧
      row.length = cols.length ∧
      ∀ j k, cols.get? j = some k →
        row.get? j = some (jacEntry ev values p k) := by
  refine ⟨mapExcept_ok_length h, fun i p hp => ?_⟩
  obtain ⟨row, hrow, hfill⟩ := mapExcept_ok_fwd h i p hp
  refine ⟨row, hrow, ?_, fun j k hjk => ?_⟩
  · rw [fillRow_ok_length hfill, List.length_replicate]
  · have hbase : (List.replicate cols.length (0 : ℚ)).length = cols.length :=
      List.length_replicate _ _
    have := fillRow_ok_get hnd (hpnd p (List.get?_mem hp)) hbase hfill j k hjk
    rw [this]
    unfold jacEntry
    cases hl : p.lookup k
    · rw [replicate_get? _ _ _ (get?_some_lt hjk)]
    · rfl

theorem mkSymSolver_partials_nodup (equations : List Expr)
    (names : Dict String) (combos : Dict (List Nat)) (tol : ℚ) :
    ∀ p ∈ (mkSymSolver equations names combos tol).partials,
      (keysOf p).Nodup := by
  intro p hp
  simp only [mkSymSolver, List.mem_map] at hp
  obtain ⟨e, _, rfl⟩ := hp
  rw [keysOf_partialMap]
  exact freeVars_nodup _

theorem usedVars_cols_nodup {α : Type} (ps : List (Dict α))
    (values errors : Dict ℚ) :
    ((usedVarsC ps values errors).1 ++ (usedVarsC ps values errors).2).Nodup :=
  List.Nodup.append (usedVarsC_val_nodup ps values errors)
    (usedVarsC_err_nodup ps values errors)
    (List.disjoint_left.mpr fun _ h => usedVarsC_disjoint ps values errors _ h)

theorem selectCombo_length_eq {α β : Type} {xs : List α} {ys : List β}
    (hlen : xs.length = ys.length) {combos : Dict (List Nat)}
    {combo : Option String} {out1 : List α} {out2 : List β}
    (h1 : selectCombo xs combos combo = .ok out1)
    (h2 : selectCombo ys combos combo = .ok out2) :
    out1.length = out2.length := by
  unfold selectCombo at h1 h2
  cases combo with
  | none =>
    injection h1 with h1
    injection h2 with h2
    subst h1; subst h2
    exact hlen
  | some c =>
    dsimp only at h1 h2
    cases hl : combos.lookup c <;> rw [hl] at h1 h2
    · simp at h1
    · dsimp only at h1 h2
      rw [mapExcept_ok_length h1, mapExcept_ok_length h2]

/-! ### Helper lemmas for unfolding `solve` and `check` -/

theorem solveE_ok_check {s : SymSolver} {values errors const : Dict ℚ}
    {combo : Option String} {stdev : Bool} {sqrt : ℚ → ℚ} {df : Table}
    (h : solveE s values errors const combo true stdev sqrt = .ok df) :
    checkE s values errors combo = .ok () := by
  cases hc : checkE s values errors combo with
  | error e => simp [solveE, hc] at h
  | ok u => cases u; rfl

theorem solvePy_ok_check {s : PySolver} {values errors const : Dict ℚ}
    {combo : Option String} {stdev : Bool} {sqrt : ℚ → ℚ} {df : Table}
    (h : solvePy s values errors const combo true stdev sqrt = .ok df) :
    checkPy s values errors combo = .ok () := by
  cases hc : checkPy s values errors combo with
  | error e => simp [solvePy, hc] at h
  | ok u => cases u; rfl

theorem checkE_ok_determinancy {s : SymSolver} {values errors : Dict ℚ}
    {combo : Option String} (h : checkE s values errors combo = .ok ()) :
    checkDeterminancyE s values errors combo = .ok () := by
  unfold checkE at h
  cases hr : checkRestrictedE values errors with
  | error e => rw [hr] at h; simp at h
  | ok u =>
    rw [hr] at h
    dsimp only at h
    cases he : getEquationsE s combo with
    | error e => rw [he] at h; simp at h
    | ok eqs =>
      rw [he] at h
      dsimp only at h
      cases hv : checkValuesAux s.tol values 0 eqs with
      | error e => rw [hv] at h; simp at h
      | ok w => rw [hv] at h; exact h

theorem checkPy_ok_determinancy {s : PySolver} {values errors : Dict ℚ}
    {combo : Option String} (h : checkPy s values errors combo = .ok ()) :
    checkDeterminancyPy s values errors combo = .ok () := by
  unfold checkPy at h
  cases he : getEquationsPy s combo with
  | error e => rw [he] at h; simp at h
  | ok eqs =>
    rw [he] at h
    dsimp only at h
    cases hv : checkValuesPyAux s.tol values 0 eqs with
    | error e => rw [hv] at h; simp at h
    | ok w => rw [hv] at h; exact h

theorem checkDeterminancyCore_ok_iff (val err : List String) (nEqs : Nat) :
    checkDeterminancyCore val err nEqs = .ok () ↔ val.length = nEqs := by
  unfold checkDeterminancyCore
  by_cases h : val.length = nEqs
  · simp [h]
  · by_cases h2 : nEqs > val.length <;> simp [h, h2]

/-! ### Claim theorems: classification (C3), parsing (C9), determinacy (C4) -/

/-- C3: for every values mapping, errors mapping and equation variable set
(the key sets of the active partial-derivative maps), `used_vars` returns
known-error variables equal to the equation variables that are keys of
`errors`, sorted lexicographically; unknown-error variables equal to the
equation variables that are keys of `values` minus the known-error
variables, sorted lexicographically; and the two lists are disjoint. -/
theorem c3_used_vars_classification {α : Type} (ps : List (Dict α))
    (values errors : Dict ℚ) :
    (∀ v, v ∈ (usedVarsC ps values errors).2 ↔
        v ∈ eqVarsC ps ∧ v ∈ keysOf errors) ∧
    List.Sorted (· ≤ ·) (usedVarsC ps values errors).2 ∧
    (∀ v, v ∈ (usedVarsC ps values errors).1 ↔
        v ∈ eqVarsC ps ∧ v ∈ keysOf values ∧
          v ∉ (usedVarsC ps values errors).2) ∧
    List.Sorted (· ≤ ·) (usedVarsC ps values errors).1 ∧
    (∀ v, v ∈ (usedVarsC ps values errors).1 →
        v ∉ (usedVarsC ps values errors).2) :=
  ⟨usedVarsC_err_mem ps values errors,
    sorted_sortStrings _,
    usedVarsC_val_mem ps values errors,
    sorted_sortStrings _,
    usedVarsC_disjoint ps values errors⟩

/-- Concrete instance of the classification properties: with equation
variables `x, y`, values for both and an error only for `y`, the variable
`x` is classified unknown and is not among the known-error variables. -/
theorem c3_witness :
    "x" ∉ (usedVarsC [[("x", Expr.num 1), ("y", Expr.num 1)]]
      [("x", (2 : ℚ)), ("y", 2)] [("y", 1/10)]).2 :=
  (c3_used_vars_classification [[("x", Expr.num 1), ("y", Expr.num 1)]]
      [("x", (2 : ℚ)), ("y", 2)] [("y", 1/10)]).2.2.2.2 "x" (by decide)

/-- C9: equation parsing splits on `=`: zero occurrences parse the string
as-is, one occurrence rewrites to the zero form `'({lhs})-({rhs})'` before
parsing, two or more fail with the malformed-equation error, and a parse
failure reports the offending (original) string. -/
theorem c9_equation_parsing (parse : List Char → Option Expr)
    (equation : List Char) :
    (equation.count '=' = 0 →
      parseEquation parse equation =
        match parse equation with
        | some e => .ok e
        | none => .error (.parseError equation)) ∧
    (∀ s0 s1, equation = s0 ++ '=' :: s1 → '=' ∉ s0 → '=' ∉ s1 →
      parseEquation parse equation =
        match parse ('(' :: s0 ++ ')' :: '-' :: '(' :: s1 ++ [')']) with
        | some e => .ok e
        | none => .error (.parseError equation)) ∧
    (2 ≤ equation.count '=' →
      parseEquation parse equation = .error (.malformedEquation equation)) := by
  refine ⟨fun h0 => ?_, fun s0 s1 he h0 h1 => ?_, fun h2 => ?_⟩
  · have hs : splitEq equation = [equation] :=
      splitEq_of_no_eq _ (List.count_eq_zero.mp h0)
    simp only [parseEquation, setEqualToZero, hs]
    cases parse equation <;> rfl
  · subst he
    have hs : splitEq (s0 ++ '=' :: s1) = [s0, s1] := by
      rw [splitEq_append s0 s1 h0, splitEq_of_no_eq s1 h1]
    simp only [parseEquation, setEqualToZero, hs]
    cases parse ('(' :: s0 ++ ')' :: '-' :: '(' :: s1 ++ [')']) <;> rfl
  · have hlen : 3 ≤ (splitEq equation).length := by
      rw [splitEq_length]; omega
    cases hs : splitEq equation with
    | nil => rw [hs] at hlen; simp at hlen
    | cons a t =>
      cases t with
      | nil => rw [hs] at hlen; simp at hlen
      | cons b t2 =>
        cases t2 with
        | nil => rw [hs] at hlen; simp at hlen
        | cons c t3 => simp only [parseEquation, setEqualToZero, hs]

/-- C4: with checking enabled, validation raises the indeterminate-system
error exactly when the number of unknown-error variables differs from the
number of active equations — the raised error states both counts, the
comparison, the add/remove action and the candidate variable list — and
`solve` (either representation) succeeds only when the two counts agree,
never proceeding past validation otherwise. -/
theorem c4_determinacy :
    (∀ (val err : List String) (nEqs : Nat),
      (checkDeterminancyCore val err nEqs = .ok () ↔ val.length = nEqs) ∧
      (val.length < nEqs →
        checkDeterminancyCore val err nEqs =
          .error (.indeterminate nEqs val.length ">" "remove"
            (nEqs - val.length) err)) ∧
      (nEqs < val.length →
        checkDeterminancyCore val err nEqs =
          .error (.indeterminate nEqs val.length "<" "add"
            (val.length - nEqs) val))) ∧
    (∀ (s : SymSolver) (values errors const : Dict ℚ) (combo : Option String)
      (stdev : Bool) (sqrt : ℚ → ℚ) (df : Table) (ps : List (Dict Expr))
      (eqs : List Expr),
      getPartialsE s combo = .ok ps →
      getEquationsE s combo = .ok eqs →
      solveE s values errors const combo true stdev sqrt = .ok df →
      (usedVarsC ps values errors).1.length = eqs.length) ∧
    (∀ (s : PySolver) (values errors const : Dict ℚ) (combo : Option String)
      (stdev : Bool) (sqrt : ℚ → ℚ) (df : Table)
      (ps : List (Dict (Dict ℚ → Option ℚ))) (eqs : List (Dict ℚ → Option ℚ)),
      getPartialsPy s combo = .ok ps →
      getEquationsPy s combo = .ok eqs →
      solvePy s values errors const combo true stdev sqrt = .ok df →
      (usedVarsC ps values errors).1.length = eqs.length) := by
  refine ⟨fun val err nEqs => ⟨checkDeterminancyCore_ok_iff val err nEqs,
    fun h => ?_, fun h => ?_⟩, ?_, ?_⟩
  · unfold checkDeterminancyCore
    rw [if_pos (Nat.ne_of_lt h), if_pos h]
  · unfold checkDeterminancyCore
    rw [if_pos (Nat.ne_of_gt h), if_neg (by omega)]
  · intro s values errors const combo stdev sqrt df ps eqs hps heqs hsol
    have hdet := checkE_ok_determinancy (solveE_ok_check hsol)
    unfold checkDeterminancyE at hdet
    rw [hps] at hdet
    dsimp only at hdet
    rw [heqs] at hdet
    dsimp only at hdet
    rcases hp : usedVarsC ps values errors with ⟨val, err⟩
    rw [hp] at hdet
    dsimp only at hdet
    exact (checkDeterminancyCore_ok_iff val err eqs.length).mp hdet
  · intro s values errors const combo stdev sqrt df ps eqs hps heqs hsol
    have hdet := checkPy_ok_determinancy (solvePy_ok_check hsol)
    unfold checkDeterminancyPy at hdet
    rw [hps] at hdet
    dsimp only at hdet
    rw [heqs] at hdet
    dsimp only at hdet
    rcases hp : usedVarsC ps values errors with ⟨val, err⟩
    rw [hp] at hdet
    dsimp only at hdet
    exact (checkDeterminancyCore_ok_iff val err eqs.length).mp hdet

/-- Closed-form characterization of a successful `jacobian` computation on
the already-selected partial maps. -/
theorem jacobianC_ok_spec {α : Type} {ev : α → Dict ℚ → Option ℚ}
    {ps : List (Dict α)} {values errors : Dict ℚ} {jac : List (List ℚ)}
    (hpnd : ∀ p ∈ ps, (keysOf p).Nodup)
    (hjac : jacobianC ev ps values errors = .ok jac) :
    jac.length = ps.length ∧
    ∀ i p, ps.get? i = some p → ∃ row, jac.get? i = some row ∧
      row.length = (usedVarsC ps values errors).1.length +
        (usedVarsC ps values errors).2.length ∧
      ∀ j k, ((usedVarsC ps values errors).1 ++
          (usedVarsC ps values errors).2).get? j = some k →
        row.get? j = some (jacEntry ev values p k) := by
  unfold jacobianC at hjac
  have hnd := usedVars_cols_nodup ps values errors
  rcases hp : usedVarsC ps values errors with ⟨val, err⟩
  rw [hp] at hjac hnd
  dsimp only at hjac hnd
  obtain ⟨hlen, hrows⟩ := jacobianRows_ok_spec hnd hpnd hjac
  refine ⟨hlen, fun i p hip => ?_⟩
  obtain ⟨row, hrow, hrl, hentry⟩ := hrows i p hip
  refine ⟨row, hrow, ?_, hentry⟩
  rw [hrl, List.length_append]

/-- C2 (amended): whenever `jacobian` succeeds — which additionally
requires every key of an active partial map to be a classified variable and
every partial derivative to evaluate to a number at `values` — it returns
one row per active equation; the columns are the sorted unknown variables
followed by the sorted known variables; entry `(i, j)` is equation `i`'s
partial derivative with respect to column `j`'s variable evaluated at
`values` when that variable is a key of equation `i`'s partial map and `0`
otherwise; and under the determinacy precondition the leading unknown
block is square.  Both solver representations satisfy this. -/
theorem c2_jacobian_amended :
    (∀ (equations : List Expr) (names : Dict String)
      (combos : Dict (List Nat)) (tol : ℚ) (values errors : Dict ℚ)
      (combo : Option String) (ps : List (Dict Expr)) (eqs : List Expr)
      (jac : List (List ℚ)),
      getPartialsE (mkSymSolver equations names combos tol) combo = .ok ps →
      getEquationsE (mkSymSolver equations names combos tol) combo = .ok eqs →
      jacobianE (mkSymSolver equations names combos tol) values errors combo = .ok jac →
      jac.length = eqs.length ∧
      (∀ i p, ps.get? i = some p → ∃ row, jac.get? i = some row ∧
        row.length = (usedVarsC ps values errors).1.length +
          (usedVarsC ps values errors).2.length ∧
        ∀ j k, ((usedVarsC ps values errors).1 ++
            (usedVarsC ps values errors).2).get? j = some k →
          row.get? j = some (jacEntry evalExpr values p k)) ∧
      ((usedVarsC ps values errors).1.length = eqs.length →
        jac.length = (usedVarsC ps values errors).1.length ∧
        ∀ row ∈ jac, (row.take (usedVarsC ps values errors).1.length).length =
          (usedVarsC ps values errors).1.length)) ∧
    (∀ (s : PySolver) (values errors : Dict ℚ) (combo : Option String)
      (ps : List (Dict (Dict ℚ → Option ℚ))) (eqs : List (Dict ℚ → Option ℚ))
      (jac : List (List ℚ)),
      (∀ p ∈ s.partials, (keysOf p).Nodup) →
      s.partials.length = s.equations.length →
      getPartialsPy s combo = .ok ps →
      getEquationsPy s combo = .ok eqs →
      jacobianPy s values errors combo = .ok jac →
      jac.length = eqs.length ∧
      (∀ i p, ps.get? i = some p → ∃ row, jac.get? i = some row ∧
        row.length = (usedVarsC ps values errors).1.length +
          (usedVarsC ps values errors).2.length ∧
        ∀ j k, ((usedVarsC ps values errors).1 ++
            (usedVarsC ps values errors).2).get? j = some k →
          row.get? j = some (jacEntry (fun f d => f d) values p k)) ∧
      ((usedVarsC ps values errors).1.length = eqs.length →
        jac.length = (usedVarsC ps values errors).1.length ∧
        ∀ row ∈ jac, (row.take (usedVarsC ps values errors).1.length).length =
          (usedVarsC ps values errors).1.length)) := by
  constructor
  · intro equations names combos tol values errors combo ps eqs jac hps heqs hjac
    unfold jacobianE at hjac
    rw [hps] at hjac
    dsimp only at hjac
    have hpnd : ∀ p ∈ ps, (keysOf p).Nodup := fun p hpm =>
      mkSymSolver_partials_nodup equations names combos tol p
        (selectCombo_mem hps p hpm)
    obtain ⟨hlen, hrows⟩ := jacobianC_ok_spec hpnd hjac
    have hpe : (mkSymSolver equations names combos tol).partials.length =
        (mkSymSolver equations names combos tol).equations.length := by
      simp [mkSymSolver]
    have hpeq : ps.length = eqs.length := selectCombo_length_eq hpe hps heqs
    refine ⟨by rw [hlen, hpeq], hrows, fun hsq => ⟨by rw [hlen, hpeq, hsq], ?_⟩⟩
    intro row hrow
    obtain ⟨i, hi⟩ := List.get?_of_mem hrow
    have hilt : i < ps.length := by
      rw [← hlen]; exact get?_some_lt hi
    obtain ⟨p, hpi⟩ : ∃ p, ps.get? i = some p := by
      cases hg : ps.get? i with
      | none => exact absurd (List.get?_eq_none.mp hg) (Nat.not_le_of_lt hilt)
      | some p => exact ⟨p, rfl⟩
    obtain ⟨row', hrow', hrl, _⟩ := hrows i p hpi
    rw [hi] at hrow'
    injection hrow' with hrow'
    subst hrow'
    rw [List.length_take, hrl]
    exact Nat.min_eq_left (Nat.le_add_right _ _)
  · intro s values errors combo ps eqs jac hnodup hpar hps heqs hjac
    unfold jacobianPy at hjac
    rw [hps] at hjac
    dsimp only at hjac
    have hpnd : ∀ p ∈ ps, (keysOf p).Nodup := fun p hpm =>
      hnodup p (selectCombo_mem hps p hpm)
    obtain ⟨hlen, hrows⟩ := jacobianC_ok_spec hpnd hjac
    have hpeq : ps.length = eqs.length := selectCombo_length_eq hpar hps heqs
    refine ⟨by rw [hlen, hpeq], hrows, fun hsq => ⟨by rw [hlen, hpeq, hsq], ?_⟩⟩
    intro row hrow
    obtain ⟨i, hi⟩ := List.get?_of_mem hrow
    have hilt : i < ps.length := by
      rw [← hlen]; exact get?_some_lt hi
    obtain ⟨p, hpi⟩ : ∃ p, ps.get? i = some p := by
      cases hg : ps.get? i with
      | none => exact absurd (List.get?_eq_none.mp hg) (Nat.not_le_of_lt hilt)
      | some p => exact ⟨p, rfl⟩
    obtain ⟨row', hrow', hrl, _⟩ := hrows i p hpi
    rw [hi] at hrow'
    injection hrow' with hrow'
    subst hrow'
    rw [List.length_take, hrl]
    exact Nat.min_eq_left (Nat.le_add_right _ _)

theorem mapExcept_error {α β : Type} {f : α → Except SolverError β} :
    ∀ {l : List α} {e : SolverError}, mapExcept f l = .error e →
      ∃ x ∈ l, f x = .error e := by
  intro l
  induction l with
  | nil => intro e h; unfold mapExcept at h; simp at h
  | cons a rest ih =>
    intro e h
    unfold mapExcept at h
    cases hf : f a <;> rw [hf] at h
    · injection h with h
      subst h
      exact ⟨a, List.mem_cons_self a rest, hf⟩
    · cases hm : mapExcept f rest <;> rw [hm] at h
      · dsimp only at h
        injection h with h
        subst h
        obtain ⟨x, hx, hfx⟩ := ih hm
        exact ⟨x, List.mem_cons_of_mem a hx, hfx⟩
      · simp at h

theorem selectCombo_error {α : Type} {xs : List α} {combos : Dict (List Nat)}
    {combo : Option String} {e : SolverError}
    (h : selectCombo xs combos combo = .error e) :
    (∃ c, e = .unknownCombo c) ∨ (∃ i, e = .indexError i) := by
  unfold selectCombo at h
  cases combo with
  | none => simp at h
  | some c =>
    dsimp only at h
    cases hl : combos.lookup c <;> rw [hl] at h
    · injection h with h
      exact Or.inl ⟨c, h.symm⟩
    · dsimp only at h
      obtain ⟨i, _, hfi⟩ := mapExcept_error h
      cases hg : xs.get? i <;> rw [hg] at hfi
      · injection hfi with hfi
        exact Or.inr ⟨i, hfi.symm⟩
      · simp at hfi

theorem checkValuesPyAux_error {tol : ℚ} {values : Dict ℚ} :
    ∀ {i : Nat} {eqs : List (Dict ℚ → Option ℚ)} {e : SolverError},
      checkValuesPyAux tol values i eqs = .error e →
      (∃ j, e = .pyCallError j) ∨ (∃ j v t, e = .toleranceExceeded j v t) := by
  intro i eqs
  induction eqs generalizing i with
  | nil => intro e h; unfold checkValuesPyAux at h; simp at h
  | cons eq rest ih =>
    intro e h
    unfold checkValuesPyAux at h
    cases hv : eq values <;> rw [hv] at h
    · injection h with h
      exact Or.inl ⟨i, h.symm⟩
    · rename_i v
      dsimp only at h
      by_cases ht : |v| > tol
    <;> [rw [if_pos ht] at h; rw [if_neg ht] at h]
      · injection h with h
        exact Or.inr ⟨i, v, tol, h.symm⟩
      · exact ih h

theorem checkDeterminancyCore_error {val err : List String} {nEqs : Nat}
    {e : SolverError} (h : checkDeterminancyCore val err nEqs = .error e) :
    ∃ m n c a cnt vs, e = .indeterminate m n c a cnt vs := by
  unfold checkDeterminancyCore at h
  by_cases hne : val.length ≠ nEqs
  · rw [if_pos hne] at h
    by_cases hgt : nEqs > val.length
    · rw [if_pos hgt] at h
      injection h with h
      exact ⟨_, _, _, _, _, _, h.symm⟩
    · rw [if_neg hgt] at h
      injection h with h
      exact ⟨_, _, _, _, _, _, h.symm⟩
  · rw [if_neg hne] at h
    simp at h

/-- C5 (amended): the restricted-symbol contract holds only for the
symbolic-expression-backed solver: its `check` raises the restricted-symbol
error listing the sorted offending names whenever a supplied value or error
variable name is restricted.  The function-backed solver's `check` runs
only the residual and determinacy checks and can never raise a
restricted-symbol error. -/
theorem c5_restricted_check_amended :
    (∀ (s : SymSolver) (values errors : Dict ℚ) (combo : Option String),
      offendingSymbols values errors ≠ [] →
      checkE s values errors combo =
        .error (.restrictedSymbol (offendingSymbols values errors))) ∧
    (∀ (s : PySolver) (values errors : Dict ℚ) (combo : Option String)
      (l : List String),
      checkPy s values errors combo ≠ .error (.restrictedSymbol l)) := by
  constructor
  · intro s values errors combo hne
    have hr : checkRestrictedE values errors =
        .error (.restrictedSymbol (offendingSymbols values errors)) := by
      unfold checkRestrictedE
      rw [if_neg (by simpa [List.isEmpty_iff] using hne)]
    unfold checkE
    rw [hr]
  · intro s values errors combo l hcontra
    unfold checkPy at hcontra
    cases he : getEquationsPy s combo <;> rw [he] at hcontra
    · injection hcontra with hcontra
      rcases selectCombo_error (he.trans (congrArg Except.error hcontra)) with
        ⟨c, hc⟩ | ⟨i, hi⟩
      · exact SolverError.noConfusion hc
      · exact SolverError.noConfusion hi
    · dsimp only at hcontra
      cases hv : checkValuesPyAux s.tol values 0 _ <;> rw [hv] at hcontra
      · injection hcontra with hcontra
        subst hcontra
        rcases checkValuesPyAux_error hv with ⟨j, hj⟩ | ⟨j, v, t, hj⟩ <;>
          simp at hj
      · dsimp only at hcontra
        unfold checkDeterminancyPy at hcontra
        cases hp : getPartialsPy s combo <;> rw [hp] at hcontra
        · injection hcontra with hcontra
          rcases selectCombo_error (hp.trans (congrArg Except.error hcontra)) with
            ⟨c, hc⟩ | ⟨i, hi⟩
          · exact SolverError.noConfusion hc
          · exact SolverError.noConfusion hi
        · dsimp only at hcontra
          cases he2 : getEquationsPy s combo <;> rw [he2] at hcontra
          · injection hcontra with hcontra
            rcases selectCombo_error (he2.trans (congrArg Except.error hcontra)) with
              ⟨c, hc⟩ | ⟨i, hi⟩
            · exact SolverError.noConfusion hc
            · exact SolverError.noConfusion hi
          · dsimp only at hcontra
            rcases hu : usedVarsC _ values errors with ⟨val, err⟩
            rw [hu] at hcontra
            dsimp only at hcontra
            obtain ⟨m, n, c, a, cnt, vs, hsh⟩ :=
              checkDeterminancyCore_error hcontra
            simp at hsh

theorem lookup_dictReplace {α : Type} (k : String) (v : α) :
    ∀ (d : Dict α), (d.lookup k).isSome = true →
      (dictReplace k v d).lookup k = some v := by
  intro d
  induction d with
  | nil => intro h; simp [List.lookup] at h
  | cons p rest ih =>
    obtain ⟨k₁, v₁⟩ := p
    intro h
    unfold dictReplace
    by_cases hk : k₁ = k
    · rw [if_pos hk]
      simp [List.lookup]
    · have hbeq : (k == k₁) = false :=
        beq_eq_false_iff_ne.mpr fun hh => hk hh.symm
      simp only [List.lookup, hbeq] at h
      rw [if_neg hk]
      simp only [List.lookup, hbeq]
      exact ih h

theorem lookup_dictReplace_other {α : Type} (k k' : String) (v : α)
    (hne : k' ≠ k) :
    ∀ (d : Dict α), (dictReplace k v d).lookup k' = d.lookup k' := by
  intro d
  induction d with
  | nil => simp [dictReplace]
  | cons p rest ih =>
    obtain ⟨k₁, v₁⟩ := p
    unfold dictReplace
    by_cases hk : k₁ = k
    · rw [if_pos hk]
      subst hk
      have hbeq : (k' == k₁) = false := beq_eq_false_iff_ne.mpr hne
      simp only [List.lookup, hbeq]
      exact ih
    · rw [if_neg hk]
      simp only [List.lookup]
      cases k' == k₁
      · exact ih
      · rfl

theorem lookup_append_new {α : Type} (k : String) (v : α) :
    ∀ (d : Dict α), d.lookup k = none → (d ++ [(k, v)]).lookup k = some v := by
  intro d
  induction d with
  | nil => intro _; simp [List.lookup]
  | cons p rest ih =>
    obtain ⟨k₁, v₁⟩ := p
    intro h
    simp only [List.lookup] at h
    simp only [List.cons_append, List.lookup]
    cases hbeq : (k == k₁)
    · rw [hbeq] at h
      exact ih h
    · rw [hbeq] at h
      exact Option.noConfusion h

theorem lookup_append_other {α : Type} (k k' : String) (v : α)
    (hne : k' ≠ k) :
    ∀ (d : Dict α), ((d ++ [(k, v)]).lookup k') = d.lookup k' := by
  intro d
  induction d with
  | nil =>
    have hbeq : (k' == k) = false := by
      simp only [beq_eq_false_iff_ne, ne_eq]
      exact hne
    simp [List.lookup, hbeq]
  | cons p rest ih =>
    obtain ⟨k₁, v₁⟩ := p
    simp only [List.cons_append, List.lookup]
    cases k' == k₁
    · exact ih
    · rfl

theorem lookup_dictSet_self {α : Type} (d : Dict α) (k : String) (v : α) :
    (dictSet d k v).lookup k = some v := by
  unfold dictSet
  by_cases h : (d.lookup k).isSome = true
  · rw [if_pos h]
    exact lookup_dictReplace k v d h
  · rw [if_neg h]
    refine lookup_append_new k v d ?_
    cases hl : d.lookup k
    · rfl
    · rw [hl] at h; simp at h

theorem lookup_dictSet_other {α : Type} (d : Dict α) (k k' : String) (v : α)
    (hne : k' ≠ k) : (dictSet d k v).lookup k' = d.lookup k' := by
  unfold dictSet
  by_cases h : (d.lookup k).isSome = true
  · rw [if_pos h]
    exact lookup_dictReplace_other k k' v hne d
  · rw [if_neg h]
    exact lookup_append_other k k' v hne d

theorem applyLinks_lookup_untouched {prev : Table} {x : String} :
    ∀ {links : Dict String} {e d : Dict ℚ},
      applyLinks prev links e = .ok d → (∀ kx ∈ links, kx.2 ≠ x) →
      d.lookup x = e.lookup x := by
  intro links
  induction links with
  | nil =>
    intro e d h _
    unfold applyLinks at h
    injection h with h
    subst h
    rfl
  | cons kx rest ih =>
    obtain ⟨k, t⟩ := kx
    intro e d h hun
    unfold applyLinks at h
    cases hf : findRow k prev <;> rw [hf] at h
    · simp at h
    · rename_i row
      dsimp only at h
      rw [ih h fun q hq => hun q (List.mem_cons_of_mem _ hq)]
      exact lookup_dictSet_other e t x row.error
        fun hh => hun (k, t) (List.mem_cons_self _ _) hh.symm

theorem applyLinks_override {prev : Table} :
    ∀ {l₁ : Dict String} {k x : String} {l₂ : Dict String} {e d : Dict ℚ}
      {row : ResultRow},
      applyLinks prev (l₁ ++ (k, x) :: l₂) e = .ok d →
      (∀ kx ∈ l₂, kx.2 ≠ x) → findRow k prev = some row →
      d.lookup x = some row.error := by
  intro l₁
  induction l₁ with
  | nil =>
    intro k x l₂ e d row h hl₂ hrow
    rw [List.nil_append] at h
    unfold applyLinks at h
    rw [hrow] at h
    dsimp only at h
    rw [applyLinks_lookup_untouched h hl₂]
    exact lookup_dictSet_self e x row.error
  | cons q l₁ ih =>
    obtain ⟨k₀, x₀⟩ := q
    intro k x l₂ e d row h hl₂ hrow
    rw [List.cons_append] at h
    unfold applyLinks at h
    cases hf : findRow k₀ prev <;> rw [hf] at h
    · simp at h
    · dsimp only at h
      exact ih h hl₂ hrow

theorem applyLinks_error_first {prev : Table} :
    ∀ {l₁ : Dict String} {k x : String} {l₂ : Dict String} {e : Dict ℚ},
      (∀ kx ∈ l₁, (findRow kx.1 prev).isSome = true) → findRow k prev = none →
      applyLinks prev (l₁ ++ (k, x) :: l₂) e = .error (.keyError k) := by
  intro l₁
  induction l₁ with
  | nil =>
    intro k x l₂ e _ hk
    rw [List.nil_append]
    unfold applyLinks
    rw [hk]
  | cons q l₁ ih =>
    obtain ⟨k₀, x₀⟩ := q
    intro k x l₂ e hfound hk
    rw [List.cons_append]
    unfold applyLinks
    have h₀ := hfound (k₀, x₀) (List.mem_cons_self _ _)
    cases hf : findRow k₀ prev
    · rw [hf] at h₀; simp at h₀
    · dsimp only
      exact ih (fun q hq => hfound q (List.mem_cons_of_mem _ hq)) hk

theorem runFrom_stage_error (p : Pipeline) (values errors : List (Dict ℚ))
    (check stdev : Bool) (sqrt : ℚ → ℚ) (sv : AnySolver)
    (rest : List AnySolver) (i : Nat) (results : List Table)
    (constPrev : Option (Dict ℚ)) (e : SolverError) (hi : i ≠ 0)
    (happ : applyLinks ((results.getLast?).getD []) (p.links.getD (i - 1) [])
      (errors.getD i []) = .error e) :
    runFrom p values errors true check stdev sqrt (sv :: rest) i results
      constPrev = .error e := by
  have hc : stageConst true constPrev i = .ok [] := by
    unfold stageConst
    rw [if_pos rfl]
  have he : stageErrors p errors results i = .error e := by
    unfold stageErrors
    rw [if_neg hi]
    exact happ
  unfold runFrom
  rw [hc]
  dsimp only
  rw [he]

/-- C6 (amended): for each stage `i > 0`, each link pair `(from_key,
to_key)` overwrites the stage's (copied) errors input at `to_key` with the
propagated error of `from_key` from the previous stage's result — the last
pair targeting a given key wins and untargeted keys are unchanged — and a
`from_key` absent from the previous result raises a `KeyError` naming it,
which the stage loop surfaces to the caller.  A `to_key` that is not a
variable of the current stage's equations is not detected (see the
counterexample). -/
theorem c6_pipeline_links_amended :
    (∀ (prev : Table) (l₁ : Dict String) (k x : String) (l₂ : Dict String)
      (e d : Dict ℚ) (row : ResultRow),
      applyLinks prev (l₁ ++ (k, x) :: l₂) e = .ok d →
      (∀ kx ∈ l₂, kx.2 ≠ x) → findRow k prev = some row →
      d.lookup x = some row.error) ∧
    (∀ (prev : Table) (links : Dict String) (e d : Dict ℚ) (x : String),
      applyLinks prev links e = .ok d → (∀ kx ∈ links, kx.2 ≠ x) →
      d.lookup x = e.lookup x) ∧
    (∀ (prev : Table) (l₁ : Dict String) (k x : String) (l₂ : Dict String)
      (e : Dict ℚ),
      (∀ kx ∈ l₁, (findRow kx.1 prev).isSome = true) →
      findRow k prev = none →
      applyLinks prev (l₁ ++ (k, x) :: l₂) e = .error (.keyError k)) ∧
    (∀ (p : Pipeline) (values errors : List (Dict ℚ)) (check stdev : Bool)
      (sqrt : ℚ → ℚ) (sv : AnySolver) (rest : List AnySolver) (i : Nat)
      (results : List Table) (constPrev : Option (Dict ℚ)) (e : SolverError),
      i ≠ 0 →
      applyLinks ((results.getLast?).getD []) (p.links.getD (i - 1) [])
        (errors.getD i []) = .error e →
      runFrom p values errors true check stdev sqrt (sv :: rest) i results
        constPrev = .error e) :=
  ⟨fun _ _ _ _ _ _ _ _ h h2 h3 => applyLinks_override h h2 h3,
    fun _ _ _ _ _ h h2 => applyLinks_lookup_untouched h h2,
    fun _ _ _ _ _ _ h h2 => applyLinks_error_first h h2,
    fun p values errors check stdev sqrt sv rest i results constPrev e hi happ =>
      runFrom_stage_error p values errors check stdev sqrt sv rest i results
        constPrev e hi happ⟩

/-- C7 (code bug): any pipeline solve with a non-`None` `consts` list
raises `UnboundLocalError` at stage 0, because the source computes
`const = {} if consts is None else const[i]`, reading the loop-local
`const` before assignment instead of indexing the parameter `consts`; the
claimed behaviour (stage `i` solving with `consts[i]`) is never reached. -/
theorem c7_consts_unbound (sv : AnySolver) (rest : List AnySolver)
    (links : List (Dict String)) (combos : Option (List (Option String)))
    (values errors : List (Dict ℚ)) (cs : List (Dict ℚ))
    (check stdev : Bool) (sqrt : ℚ → ℚ) :
    pipelineSolve ⟨sv :: rest, links, combos⟩ values errors (some cs) check
      stdev sqrt = .error .unboundLocalConst := by
  have hc : stageConst (some cs).isNone none 0 =
      .error SolverError.unboundLocalConst := by
    unfold stageConst
    rw [if_neg (by simp)]
  unfold pipelineSolve
  unfold runFrom
  rw [hc]

/-! ### Store-level frame lemmas (pipeline does not mutate caller dicts) -/

theorem storeRead_append {σ rest : Store} {a : Nat} (h : a < σ.length) :
    storeRead (σ ++ rest) a = storeRead σ a := by
  unfold storeRead
  rw [List.get?_append h]

theorem storeRead_set_ne {σ : Store} {i : Nat} {d : Dict ℚ} {a : Nat}
    (h : i ≠ a) : storeRead (σ.set i d) a = storeRead σ a := by
  unfold storeRead
  rw [List.get?_set_ne _ _ h]

theorem applyLinksStore_length {prev : Table} {a : Nat} :
    ∀ {links : Dict String} {σ : Store},
      (applyLinksStore prev a links σ).1.length = σ.length := by
  intro links
  induction links with
  | nil => intro σ; rfl
  | cons kx rest ih =>
    obtain ⟨k, x⟩ := kx
    intro σ
    unfold applyLinksStore
    cases hf : findRow k prev
    · rfl
    · dsimp only
      rw [ih, List.length_set]

theorem applyLinksStore_frame {prev : Table} {a : Nat} :
    ∀ {links : Dict String} {σ : Store} {b : Nat}, b ≠ a →
      storeRead (applyLinksStore prev a links σ).1 b = storeRead σ b := by
  intro links
  induction links with
  | nil => intro σ b _; rfl
  | cons kx rest ih =>
    obtain ⟨k, x⟩ := kx
    intro σ b hb
    unfold applyLinksStore
    cases hf : findRow k prev
    · rfl
    · dsimp only
      rw [ih hb, storeRead_set_ne fun hh => hb hh.symm]

theorem runFromStore_frame (p : Pipeline) (valuesA errorsA : List Nat)
    (constsIsNone check stdev : Bool) (sqrt : ℚ → ℚ) :
    ∀ (solvers : List AnySolver) (i : Nat) (results : List Table)
      (constPrev : Option (Dict ℚ)) (σ : Store) (a : Nat), a < σ.length →
      storeRead (runFromStore p valuesA errorsA constsIsNone check stdev sqrt
        solvers i results constPrev σ).1 a = storeRead σ a := by
  intro solvers
  induction solvers with
  | nil => intro i results constPrev σ a _; rfl
  | cons sv rest ih =>
    intro i results constPrev σ a ha
    unfold runFromStore
    cases hc : stageConst constsIsNone constPrev i
    · rfl
    · dsimp only
      by_cases hi : i = 0
      · rw [if_pos hi]
        cases hs : solveAny sv (storeRead σ (valuesA.getD i 0))
            (storeRead σ (errorsA.getD 0 0)) _ (stageCombo p i) check stdev sqrt
        · rfl
        · dsimp only
          exact ih (i + 1) _ _ σ a ha
      · rw [if_neg hi]
        rcases happ : applyLinksStore ((results.getLast?).getD []) σ.length
            (p.links.getD (i - 1) [])
            (σ ++ [storeRead σ (errorsA.getD i 0)]) with ⟨σ₂, r⟩
        have hσ₂a : storeRead σ₂ a = storeRead σ a := by
          have h1 : storeRead σ₂ a =
              storeRead (σ ++ [storeRead σ (errorsA.getD i 0)]) a := by
            have := @applyLinksStore_frame ((results.getLast?).getD [])
              σ.length (p.links.getD (i - 1) [])
              (σ ++ [storeRead σ (errorsA.getD i 0)]) a
              (Nat.ne_of_lt ha)
            rw [happ] at this
            exact this
          rw [h1, storeRead_append ha]
        have hσ₂len : σ.length < σ₂.length := by
          have h2 : σ₂.length =
              (σ ++ [storeRead σ (errorsA.getD i 0)]).length := by
            have := @applyLinksStore_length ((results.getLast?).getD [])
              σ.length (p.links.getD (i - 1) [])
              (σ ++ [storeRead σ (errorsA.getD i 0)])
            rw [happ] at this
            exact this
          rw [h2, List.length_append]
          simp
        cases r
        · dsimp only
          exact hσ₂a
        · dsimp only
          cases hs : solveAny sv (storeRead σ₂ (valuesA.getD i 0))
              (storeRead σ₂ σ.length) _ (stageCombo p i) check stdev sqrt
          · dsimp only
            exact hσ₂a
          · dsimp only
            rw [ih (i + 1) _ _ σ₂ a (Nat.lt_trans ha hσ₂len)]
            exact hσ₂a

/-- C10: a pipeline solve (succeeding or failing) never mutates the
caller's dict objects: every store cell that existed before the call reads
back unchanged afterwards.  Each later stage copies its errors dict into a
fresh cell before applying the link overrides, and the solver's `solve` is
pure in the embedding because its source reads but never assigns into its
argument dicts or its receiver. -/
theorem c10_solve_no_mutation (p : Pipeline) (valuesA errorsA : List Nat)
    (constsIsNone check stdev : Bool) (sqrt : ℚ → ℚ) (σ : Store) (a : Nat)
    (ha : a < σ.length) :
    storeRead (pipelineSolveStore p valuesA errorsA constsIsNone check stdev
      sqrt σ).1 a = storeRead σ a := by
  unfold pipelineSolveStore
  rcases hr : runFromStore p valuesA errorsA constsIsNone check stdev sqrt
      p.solvers 0 [] none σ with ⟨σ', r⟩
  have := runFromStore_frame p valuesA errorsA constsIsNone check stdev sqrt
    p.solvers 0 [] none σ a ha
  rw [hr] at this
  cases r
  · dsimp only
    exact this
  · dsimp only
    exact this

/-! ### Lemmas about the result table -/

instance rowLe.total : IsTotal ResultRow rowLe :=
  ⟨fun a b => total_of strLe a.var b.var⟩

instance rowLe.trns : IsTrans ResultRow rowLe :=
  ⟨fun _ _ _ hab hbc => trans_of strLe hab hbc⟩

theorem errVec_length (d : Dict ℚ) (vars : List String) :
    (errVec d vars).length = vars.length := List.length_map _ _

theorem matVec_length (m : List (List ℚ)) (v : List ℚ) :
    (matVec m v).length = m.length := List.length_map _ _

theorem matAbs_length (m : List (List ℚ)) : (matAbs m).length = m.length :=
  List.length_map _ _

theorem matInvN_length (n : Nat) (m : List (List ℚ)) :
    (matInvN n m).length = n := by
  simp [matInvN]

theorem vecAbs_length (v : List ℚ) : (vecAbs v).length = v.length :=
  List.length_map _ _

theorem vecSq_length (v : List ℚ) : (vecSq v).length = v.length :=
  List.length_map _ _

theorem vecAdd_length (a b : List ℚ) (h : a.length = b.length) :
    (vecAdd a b).length = a.length := by
  simp [vecAdd, h]

theorem lookupAll_ok_length {values : Dict ℚ} :
    ∀ {vars : List String} {vals : List ℚ},
      lookupAll values vars = .ok vals → vals.length = vars.length := by
  intro vars
  induction vars with
  | nil =>
    intro vals h
    unfold lookupAll at h
    injection h with h
    subst h
    rfl
  | cons k rest ih =>
    intro vals h
    unfold lookupAll at h
    cases hl : values.lookup k <;> rw [hl] at h
    · simp at h
    · cases hr : lookupAll values rest <;> rw [hr] at h
      · simp at h
      · dsimp only at h
        injection h with h
        subst h
        simp [ih hr]

theorem solveVectors_length {α : Type} (ps : List (Dict α))
    (values errors const : Dict ℚ) (stdev : Bool) (sqrt : ℚ → ℚ)
    (jac : List (List ℚ)) :
    (solveVectors ps values errors const stdev sqrt jac).1.length =
      (usedVarsC ps values errors).1.length ∧
    (solveVectors ps values errors const stdev sqrt jac).2.length =
      (usedVarsC ps values errors).2.length := by
  unfold solveVectors
  rcases usedVarsC ps values errors with ⟨val, err⟩
  dsimp only
  by_cases h1 : const.isEmpty <;> by_cases h2 : stdev <;>
    simp [h1, h2, matVec, matAbs, matInvN, vecAdd, vecSq, vecAbs, errVec]

theorem mkRows_map_var : ∀ {vs : List String} {xs es : List ℚ} {b : Bool},
    xs.length = vs.length → es.length = vs.length →
    (mkRows vs xs es b).map (fun r => r.var) = vs := by
  intro vs
  induction vs with
  | nil => intro xs es b _ _; simp [mkRows]
  | cons v vs ih =>
    intro xs es b hx he
    cases xs with
    | nil => simp at hx
    | cons x xs =>
      cases es with
      | nil => simp at he
      | cons e es =>
        simp only [mkRows, List.map_cons, List.cons.injEq, true_and]
        exact ih (by simpa using hx) (by simpa using he)

theorem mkRows_mem : ∀ {vs : List String} {xs es : List ℚ} {b : Bool},
    ∀ r ∈ mkRows vs xs es b,
      r.pct_error = pctOf r.error r.value ∧ r.is_calc = b := by
  intro vs
  induction vs with
  | nil => intro xs es b r hr; simp [mkRows] at hr
  | cons v vs ih =>
    intro xs es b r hr
    cases xs with
    | nil => simp [mkRows] at hr
    | cons x xs =>
      cases es with
      | nil => simp [mkRows] at hr
      | cons e es =>
        simp only [mkRows, List.mem_cons] at hr
        rcases hr with rfl | hr
        · exact ⟨rfl, rfl⟩
        · exact ih r hr

theorem findRow_cons (r : ResultRow) (t : Table) (v : String) :
    findRow v (r :: t) = if r.var = v then some r else findRow v t := by
  by_cases h : r.var = v <;> simp [findRow, List.find?, h]

theorem findRow_mem_var : ∀ {t : Table} {v : String} {r : ResultRow},
    findRow v t = some r → r ∈ t ∧ r.var = v := by
  intro t
  induction t with
  | nil => intro v r h; simp [findRow, List.find?] at h
  | cons a t ih =>
    intro v r h
    rw [findRow_cons] at h
    by_cases ha : a.var = v
    · rw [if_pos ha] at h
      injection h with h
      subst h
      exact ⟨List.mem_cons_self _ _, ha⟩
    · rw [if_neg ha] at h
      obtain ⟨hm, hv⟩ := ih h
      exact ⟨List.mem_cons_of_mem _ hm, hv⟩

theorem findRow_append_right : ∀ {A B : Table} {v : String},
    (∀ r ∈ A, r.var ≠ v) → findRow v (A ++ B) = findRow v B := by
  intro A
  induction A with
  | nil => intro B v _; rfl
  | cons a A ih =>
    intro B v h
    rw [List.cons_append, findRow_cons,
      if_neg (h a (List.mem_cons_self _ _)),
      ih fun r hr => h r (List.mem_cons_of_mem _ hr)]

theorem findRow_perm : ∀ {t t' : Table}, t.Perm t' →
    (t.map (fun r => r.var)).Nodup → ∀ v, findRow v t = findRow v t' := by
  intro t t' hp
  induction hp with
  | nil => intro _ _; rfl
  | cons x hp ih =>
    intro hnd v
    rw [findRow_cons, findRow_cons]
    by_cases h : x.var = v
    · rw [if_pos h, if_pos h]
    · rw [if_neg h, if_neg h,
        ih (List.nodup_cons.mp (by simpa using hnd)).2 v]
  | swap a b l =>
    intro hnd v
    simp only [List.map_cons, List.nodup_cons, List.mem_cons] at hnd
    simp only [findRow_cons]
    by_cases ha : a.var = v <;> by_cases hb : b.var = v
    · exact absurd (hb.trans ha.symm) fun hh => hnd.1 (Or.inl hh)
    · simp [ha, hb]
    · simp [ha, hb]
    · simp [ha, hb]
  | trans h1 h2 ih1 ih2 =>
    intro hnd v
    rw [ih1 hnd v, ih2 (((h1.map _).nodup_iff).mp hnd) v]

theorem errColumn_congr {t t' : Table} (vs : List String)
    (h : ∀ v ∈ vs, findRow v t = findRow v t') :
    errColumn t vs = errColumn t' vs :=
  List.map_congr_left fun v hv => by rw [h v hv]

theorem errColumn_block : ∀ {vs : List String} {xs es : List ℚ} {b : Bool}
    {suffix : Table}, vs.Nodup →
    (∀ v ∈ vs, ∀ r ∈ suffix, r.var ≠ v) →
    xs.length = vs.length → es.length = vs.length →
    errColumn (mkRows vs xs es b ++ suffix) vs = es.map some := by
  intro vs
  induction vs with
  | nil =>
    intro xs es b suffix _ _ _ he
    obtain rfl : es = [] := List.length_eq_zero.mp (by simpa using he)
    rfl
  | cons v vs ih =>
    intro xs es b suffix hnd hdisj hx he
    cases xs with
    | nil => simp at hx
    | cons x xs =>
      cases es with
      | nil => simp at he
      | cons e es =>
        obtain ⟨hv, hvs⟩ := List.nodup_cons.mp hnd
        simp only [mkRows, List.cons_append, errColumn, List.map_cons]
        rw [findRow_cons, if_pos rfl]
        refine congrArg₂ _ rfl ?_
        have hstep : ∀ v' ∈ vs,
            (findRow v' (⟨v, x, e, pctOf e x, b, none⟩ ::
              (mkRows vs xs es b ++ suffix))).map (fun r => r.error) =
            (findRow v' (mkRows vs xs es b ++ suffix)).map
              (fun r => r.error) := by
          intro v' hv'
          rw [findRow_cons, if_neg ?_]
          intro hh
          exact hv (by rw [← hh] at hv'; exact hv')
        rw [List.map_congr_left hstep]
        exact ih hvs (fun w hw r hr => hdisj w (List.mem_cons_of_mem _ hw) r hr)
          (by simpa using hx) (by simpa using he)

theorem mkRows_var_mem : ∀ {vs : List String} {xs es : List ℚ} {b : Bool},
    ∀ r ∈ mkRows vs xs es b, r.var ∈ vs := by
  intro vs
  induction vs with
  | nil => intro xs es b r hr; simp [mkRows] at hr
  | cons v vs ih =>
    intro xs es b r hr
    cases xs with
    | nil => simp [mkRows] at hr
    | cons x xs =>
      cases es with
      | nil => simp [mkRows] at hr
      | cons e es =>
        simp only [mkRows, List.mem_cons] at hr
        rcases hr with rfl | hr
        · exact List.mem_cons_self _ _
        · exact List.mem_cons_of_mem _ (ih r hr)

theorem solveE_ok_core {s : SymSolver} {values errors const : Dict ℚ}
    {combo : Option String} {check stdev : Bool} {sqrt : ℚ → ℚ} {df : Table}
    (h : solveE s values errors const combo check stdev sqrt = .ok df) :
    ∃ ps, getPartialsE s combo = .ok ps ∧
      solveCore evalExpr ps values errors const stdev sqrt = .ok df := by
  unfold solveE at h
  cases hchk : (if check then checkE s values errors combo else .ok ()) <;>
    rw [hchk] at h
  · simp at h
  · dsimp only at h
    cases hps : getPartialsE s combo <;> rw [hps] at h
    · simp at h
    · exact ⟨_, rfl, h⟩

theorem solvePy_ok_core {s : PySolver} {values errors const : Dict ℚ}
    {combo : Option String} {check stdev : Bool} {sqrt : ℚ → ℚ} {df : Table}
    (h : solvePy s values errors const combo check stdev sqrt = .ok df) :
    ∃ ps, getPartialsPy s combo = .ok ps ∧
      solveCore (fun f d => f d) ps values errors const stdev sqrt = .ok df := by
  unfold solvePy at h
  cases hchk : (if check then checkPy s values errors combo else .ok ()) <;>
    rw [hchk] at h
  · simp at h
  · dsimp only at h
    cases hps : getPartialsPy s combo <;> rw [hps] at h
    · simp at h
    · exact ⟨_, rfl, h⟩

/-- Elimination principle for a successful `solve` body: names the
Jacobian, the value column and the shape of the result table. -/
theorem solveCore_ok_elim {α : Type} {ev : α → Dict ℚ → Option ℚ}
    {ps : List (Dict α)} {values errors const : Dict ℚ} {stdev : Bool}
    {sqrt : ℚ → ℚ} {df : Table}
    (h : solveCore ev ps values errors const stdev sqrt = .ok df) :
    ∃ jac vals,
      jacobianRows ev values ps ((usedVarsC ps values errors).1 ++
        (usedVarsC ps values errors).2) = .ok jac ∧
      lookupAll values ((usedVarsC ps values errors).1 ++
        (usedVarsC ps values errors).2) = .ok vals ∧
      df = sortRows
        (mkRows (usedVarsC ps values errors).1
          (vals.take (usedVarsC ps values errors).1.length)
          (solveVectors ps values errors const stdev sqrt jac).1 true ++
        mkRows (usedVarsC ps values errors).2
          (vals.drop (usedVarsC ps values errors).1.length)
          (solveVectors ps values errors const stdev sqrt jac).2 false) := by
  unfold solveCore at h
  rcases hu : usedVarsC ps values errors with ⟨val, err⟩
  rw [hu] at h
  dsimp only at h
  cases hjac : jacobianRows ev values ps (val ++ err) <;> rw [hjac] at h
  · simp at h
  · rename_i jac
    dsimp only at h
    by_cases hsq : (takeCols val.length jac).length = val.length
    · rw [if_pos hsq] at h
      by_cases hdet : detN val.length (takeCols val.length jac) = 0
      · rw [if_pos hdet] at h
        simp at h
      · rw [if_neg hdet] at h
        rcases hsv : solveVectors ps values errors const stdev sqrt jac with
          ⟨xu, xk⟩
        rw [hsv] at h
        dsimp only at h
        cases hvals : lookupAll values (val ++ err) <;> rw [hvals] at h
        · simp at h
        · rename_i vals
          dsimp only at h
          injection h with h
          refine ⟨jac, vals, rfl, rfl, ?_⟩
          rw [hsv]
          exact h.symm
    · rw [if_neg hsq] at h
      simp at h

/-- The four propagation modes of the vector computation, matching the
formulas of the specification. -/
theorem solveVectors_modes {α : Type} (ps : List (Dict α))
    (values errors const : Dict ℚ) (stdev : Bool) (sqrt : ℚ → ℚ)
    (jac : List (List ℚ)) :
    (const = [] → stdev = false →
      solveVectors ps values errors const stdev sqrt jac =
        (matVec (matAbs (matInvN (usedVarsC ps values errors).1.length
            (takeCols (usedVarsC ps values errors).1.length jac)))
          (matVec (matAbs (sliceCols (usedVarsC ps values errors).1.length
              (usedVarsC ps values errors).2.length jac))
            (vecAbs (errVec errors (usedVarsC ps values errors).2))),
          vecAbs (errVec errors (usedVarsC ps values errors).2))) ∧
    (const ≠ [] → stdev = false →
      solveVectors ps values errors const stdev sqrt jac =
        (matVec (matAbs (matInvN (usedVarsC ps values errors).1.length
            (takeCols (usedVarsC ps values errors).1.length jac)))
          (vecAdd
            (matVec (matAbs (sliceCols (usedVarsC ps values errors).1.length
                (usedVarsC ps values errors).2.length jac))
              (vecAdd (vecAbs (errVec errors (usedVarsC ps values errors).2))
                (vecAbs (errVec const (usedVarsC ps values errors).2))))
            (matVec (matAbs (takeCols (usedVarsC ps values errors).1.length jac))
              (vecAbs (errVec const (usedVarsC ps values errors).1)))),
          vecAdd (vecAbs (errVec errors (usedVarsC ps values errors).2))
            (vecAbs (errVec const (usedVarsC ps values errors).2)))) ∧
    (const = [] → stdev = true →
      solveVectors ps values errors const stdev sqrt jac =
        ((matVec (matAbs (matInvN (usedVarsC ps values errors).1.length
            (takeCols (usedVarsC ps values errors).1.length jac)))
          (matVec (matAbs (sliceCols (usedVarsC ps values errors).1.length
              (usedVarsC ps values errors).2.length jac))
            (vecSq (errVec errors (usedVarsC ps values errors).2)))).map sqrt,
          (vecSq (errVec errors (usedVarsC ps values errors).2)).map sqrt)) ∧
    (const ≠ [] → stdev = true →
      solveVectors ps values errors const stdev sqrt jac =
        ((matVec (matAbs (matInvN (usedVarsC ps values errors).1.length
            (takeCols (usedVarsC ps values errors).1.length jac)))
          (vecAdd
            (matVec (matAbs (sliceCols (usedVarsC ps values errors).1.length
                (usedVarsC ps values errors).2.length jac))
              (vecAdd (vecSq (errVec errors (usedVarsC ps values errors).2))
                (vecSq (errVec const (usedVarsC ps values errors).2))))
            (matVec (matAbs (takeCols (usedVarsC ps values errors).1.length jac))
              (vecSq (errVec const (usedVarsC ps values errors).1))))).map sqrt,
          (vecAdd (vecSq (errVec errors (usedVarsC ps values errors).2))
            (vecSq (errVec const (usedVarsC ps values errors).2))).map sqrt)) := by
  refine ⟨fun hc hstd => ?_, fun hc hstd => ?_, fun hc hstd => ?_,
    fun hc hstd => ?_⟩ <;> subst hstd
  · subst hc
    unfold solveVectors
    rcases hu : usedVarsC ps values errors with ⟨val, err⟩
    rfl
  · have hf : const.isEmpty = false := by
      cases const with
      | nil => exact absurd rfl hc
      | cons a l => rfl
    unfold solveVectors
    rcases hu : usedVarsC ps values errors with ⟨val, err⟩
    dsimp only
    simp only [hf]
    rfl
  · subst hc
    unfold solveVectors
    rcases hu : usedVarsC ps values errors with ⟨val, err⟩
    rfl
  · have hf : const.isEmpty = false := by
      cases const with
      | nil => exact absurd rfl hc
      | cons a l => rfl
    unfold solveVectors
    rcases hu : usedVarsC ps values errors with ⟨val, err⟩
    dsimp only
    simp only [hf]
    rfl

/-- C1: for every `solve` call that passes validation (`check = True`
succeeding), the error columns of the result table are exactly the
computed vectors `xu` (unknown variables, `is_calc`) and `xk` (known
variables), and these vectors satisfy the claimed formulas: in tolerance
mode with no constant mapping `xu = |Ju⁻¹|·(|Jk|·|xk₀|)`; with a constant
mapping `xu = |Ju⁻¹|·(|Jk|·(|xk₀| + |ck|) + |Ju|·|cu|)` (the constant
vectors entering by absolute value); in stdev mode the same combinations
on squared quantities with a final square root, the reported known error
being the square root of the accumulated squared known error. -/
theorem c1_error_propagation (s : SymSolver) (values errors const : Dict ℚ)
    (combo : Option String) (stdev : Bool) (sqrt : ℚ → ℚ) (df : Table)
    (ps : List (Dict Expr)) (jac : List (List ℚ))
    (hps : getPartialsE s combo = .ok ps)
    (hsol : solveE s values errors const combo true stdev sqrt = .ok df)
    (hjac : jacobianRows evalExpr values ps ((usedVarsC ps values errors).1 ++
      (usedVarsC ps values errors).2) = .ok jac) :
    (errColumn df (usedVarsC ps values errors).1 =
        ((solveVectors ps values errors const stdev sqrt jac).1).map some ∧
      errColumn df (usedVarsC ps values errors).2 =
        ((solveVectors ps values errors const stdev sqrt jac).2).map some) ∧
    (const = [] → stdev = false →
      solveVectors ps values errors const stdev sqrt jac =
        (matVec (matAbs (matInvN (usedVarsC ps values errors).1.length
            (takeCols (usedVarsC ps values errors).1.length jac)))
          (matVec (matAbs (sliceCols (usedVarsC ps values errors).1.length
              (usedVarsC ps values errors).2.length jac))
            (vecAbs (errVec errors (usedVarsC ps values errors).2))),
          vecAbs (errVec errors (usedVarsC ps values errors).2))) ∧
    (const ≠ [] → stdev = false →
      solveVectors ps values errors const stdev sqrt jac =
        (matVec (matAbs (matInvN (usedVarsC ps values errors).1.length
            (takeCols (usedVarsC ps values errors).1.length jac)))
          (vecAdd
            (matVec (matAbs (sliceCols (usedVarsC ps values errors).1.length
                (usedVarsC ps values errors).2.length jac))
              (vecAdd (vecAbs (errVec errors (usedVarsC ps values errors).2))
                (vecAbs (errVec const (usedVarsC ps values errors).2))))
            (matVec (matAbs (takeCols (usedVarsC ps values errors).1.length jac))
              (vecAbs (errVec const (usedVarsC ps values errors).1)))),
          vecAdd (vecAbs (errVec errors (usedVarsC ps values errors).2))
            (vecAbs (errVec const (usedVarsC ps values errors).2)))) ∧
    (const = [] → stdev = true →
      solveVectors ps values errors const stdev sqrt jac =
        ((matVec (matAbs (matInvN (usedVarsC ps values errors).1.length
            (takeCols (usedVarsC ps values errors).1.length jac)))
          (matVec (matAbs (sliceCols (usedVarsC ps values errors).1.length
              (usedVarsC ps values errors).2.length jac))
            (vecSq (errVec errors (usedVarsC ps values errors).2)))).map sqrt,
          (vecSq (errVec errors (usedVarsC ps values errors).2)).map sqrt)) ∧
    (const ≠ [] → stdev = true →
      solveVectors ps values errors const stdev sqrt jac =
        ((matVec (matAbs (matInvN (usedVarsC ps values errors).1.length
            (takeCols (usedVarsC ps values errors).1.length jac)))
          (vecAdd
            (matVec (matAbs (sliceCols (usedVarsC ps values errors).1.length
                (usedVarsC ps values errors).2.length jac))
              (vecAdd (vecSq (errVec errors (usedVarsC ps values errors).2))
                (vecSq (errVec const (usedVarsC ps values errors).2))))
            (matVec (matAbs (takeCols (usedVarsC ps values errors).1.length jac))
              (vecSq (errVec const (usedVarsC ps values errors).1))))).map sqrt,
          (vecAdd (vecSq (errVec errors (usedVarsC ps values errors).2))
            (vecSq (errVec const (usedVarsC ps values errors).2))).map sqrt)) := by
  obtain ⟨ps', hps', hcore⟩ := solveE_ok_core hsol
  rw [hps] at hps'
  injection hps' with hps'
  subst hps'
  obtain ⟨jac', vals, hjac', hvals, hdf⟩ := solveCore_ok_elim hcore
  rw [hjac] at hjac'
  injection hjac' with hjac'
  subst hjac'
  obtain ⟨hl1, hl2⟩ := solveVectors_length ps values errors const stdev sqrt jac
  have hvl := lookupAll_ok_length hvals
  have htakelen : (vals.take (usedVarsC ps values errors).1.length).length =
      (usedVarsC ps values errors).1.length := by
    rw [List.length_take, hvl, List.length_append]
    exact Nat.min_eq_left (Nat.le_add_right _ _)
  have hdroplen : (vals.drop (usedVarsC ps values errors).1.length).length =
      (usedVarsC ps values errors).2.length := by
    rw [List.length_drop, hvl, List.length_append]
    omega
  have hmapvar : ((mkRows (usedVarsC ps values errors).1
      (vals.take (usedVarsC ps values errors).1.length)
      (solveVectors ps values errors const stdev sqrt jac).1 true ++
      mkRows (usedVarsC ps values errors).2
      (vals.drop (usedVarsC ps values errors).1.length)
      (solveVectors ps values errors const stdev sqrt jac).2 false).map
        (fun r => r.var)) =
      (usedVarsC ps values errors).1 ++ (usedVarsC ps values errors).2 := by
    rw [List.map_append, mkRows_map_var htakelen hl1,
      mkRows_map_var hdroplen hl2]
  have hnd : ((mkRows (usedVarsC ps values errors).1
      (vals.take (usedVarsC ps values errors).1.length)
      (solveVectors ps values errors const stdev sqrt jac).1 true ++
      mkRows (usedVarsC ps values errors).2
      (vals.drop (usedVarsC ps values errors).1.length)
      (solveVectors ps values errors const stdev sqrt jac).2 false).map
        (fun r => r.var)).Nodup := by
    rw [hmapvar]
    exact usedVars_cols_nodup ps values errors
  have hfr : ∀ v, findRow v df =
      findRow v (mkRows (usedVarsC ps values errors).1
        (vals.take (usedVarsC ps values errors).1.length)
        (solveVectors ps values errors const stdev sqrt jac).1 true ++
        mkRows (usedVarsC ps values errors).2
        (vals.drop (usedVarsC ps values errors).1.length)
        (solveVectors ps values errors const stdev sqrt jac).2 false) := by
    intro v
    rw [hdf]
    exact findRow_perm (List.perm_insertionSort _ _)
      (((List.perm_insertionSort _ _).map _).nodup_iff.mpr hnd) v
  have hm := solveVectors_modes ps values errors const stdev sqrt jac
  refine ⟨⟨?_, ?_⟩, hm.1, hm.2.1, hm.2.2.1, hm.2.2.2⟩
  · rw [errColumn_congr _ fun v _ => hfr v]
    exact errColumn_block (usedVarsC_val_nodup ps values errors)
      (fun v hv r hr hrv => usedVarsC_disjoint ps values errors v hv
        (hrv ▸ mkRows_var_mem r hr))
      htakelen hl1
  · rw [errColumn_congr _ fun v _ => hfr v]
    rw [errColumn_congr _ fun v hv => findRow_append_right
      (fun r hr hrv => usedVarsC_disjoint ps values errors r.var
        (mkRows_var_mem r hr) (hrv ▸ hv))]
    have hblock := @errColumn_block _ _ _ false []
      (usedVarsC_err_nodup ps values errors)
      (fun v _ r hr => absurd hr (List.not_mem_nil r))
      hdroplen hl2
    rw [List.append_nil] at hblock
    exact hblock

/-- Table-level properties of a successful `solve` body: percent error per
row, sortedness and uniqueness of the variable keys. -/
theorem solveCore_table_props {α : Type} {ev : α → Dict ℚ → Option ℚ}
    {ps : List (Dict α)} {values errors const : Dict ℚ} {stdev : Bool}
    {sqrt : ℚ → ℚ} {df : Table}
    (h : solveCore ev ps values errors const stdev sqrt = .ok df) :
    (∀ r ∈ df, r.pct_error =
      if r.value = 0 then none else some (100 * |r.error / r.value|)) ∧
    List.Sorted (· ≤ ·) (df.map fun r => r.var) ∧
    (df.map fun r => r.var).Nodup := by
  obtain ⟨jac, vals, hjac, hvals, hdf⟩ := solveCore_ok_elim h
  obtain ⟨hl1, hl2⟩ := solveVectors_length ps values errors const stdev sqrt jac
  have hvl := lookupAll_ok_length hvals
  have htakelen : (vals.take (usedVarsC ps values errors).1.length).length =
      (usedVarsC ps values errors).1.length := by
    rw [List.length_take, hvl, List.length_append]
    exact Nat.min_eq_left (Nat.le_add_right _ _)
  have hdroplen : (vals.drop (usedVarsC ps values errors).1.length).length =
      (usedVarsC ps values errors).2.length := by
    rw [List.length_drop, hvl, List.length_append]
    omega
  have hmapvar : ((mkRows (usedVarsC ps values errors).1
      (vals.take (usedVarsC ps values errors).1.length)
      (solveVectors ps values errors const stdev sqrt jac).1 true ++
      mkRows (usedVarsC ps values errors).2
      (vals.drop (usedVarsC ps values errors).1.length)
      (solveVectors ps values errors const stdev sqrt jac).2 false).map
        (fun r => r.var)) =
      (usedVarsC ps values errors).1 ++ (usedVarsC ps values errors).2 := by
    rw [List.map_append, mkRows_map_var htakelen hl1,
      mkRows_map_var hdroplen hl2]
  have hnd : ((mkRows (usedVarsC ps values errors).1
      (vals.take (usedVarsC ps values errors).1.length)
      (solveVectors ps values errors const stdev sqrt jac).1 true ++
      mkRows (usedVarsC ps values errors).2
      (vals.drop (usedVarsC ps values errors).1.length)
      (solveVectors ps values errors const stdev sqrt jac).2 false).map
        (fun r => r.var)).Nodup := by
    rw [hmapvar]
    exact usedVars_cols_nodup ps values errors
  refine ⟨?_, ?_, ?_⟩
  · intro r hr
    rw [hdf] at hr
    have hr' := (List.perm_insertionSort rowLe _).mem_iff.mp hr
    rcases List.mem_append.mp hr' with hru | hrk
    · rw [(mkRows_mem r hru).1]
      rfl
    · rw [(mkRows_mem r hrk).1]
      rfl
  · rw [hdf]
    have hPair : List.Pairwise rowLe (sortRows
        (mkRows (usedVarsC ps values errors).1
          (vals.take (usedVarsC ps values errors).1.length)
          (solveVectors ps values errors const stdev sqrt jac).1 true ++
        mkRows (usedVarsC ps values errors).2
          (vals.drop (usedVarsC ps values errors).1.length)
          (solveVectors ps values errors const stdev sqrt jac).2 false)) :=
      List.sorted_insertionSort _ _
    exact List.pairwise_map.mpr (hPair.imp fun hh => (strLe_iff _ _).mp hh)
  · rw [hdf]
    exact ((List.perm_insertionSort rowLe _).map _).nodup_iff.mpr hnd

/-- C8: every row of a result table produced by `solve` (either solver
representation) has percent error `100 * |error / value|` except when the
row's value is exactly `0`, where it is the non-finite sentinel (`none`);
and the rows are sorted by, and uniquely keyed by, the variable name. -/
theorem c8_percent_error_and_keys :
    (∀ (s : SymSolver) (values errors const : Dict ℚ) (combo : Option String)
      (check stdev : Bool) (sqrt : ℚ → ℚ) (df : Table),
      solveE s values errors const combo check stdev sqrt = .ok df →
      (∀ r ∈ df, r.pct_error =
        if r.value = 0 then none else some (100 * |r.error / r.value|)) ∧
      List.Sorted (· ≤ ·) (df.map fun r => r.var) ∧
      (df.map fun r => r.var).Nodup) ∧
    (∀ (s : PySolver) (values errors const : Dict ℚ) (combo : Option String)
      (check stdev : Bool) (sqrt : ℚ → ℚ) (df : Table),
      solvePy s values errors const combo check stdev sqrt = .ok df →
      (∀ r ∈ df, r.pct_error =
        if r.value = 0 then none else some (100 * |r.error / r.value|)) ∧
      List.Sorted (· ≤ ·) (df.map fun r => r.var) ∧
      (df.map fun r => r.var).Nodup) := by
  constructor
  · intro s values errors const combo check stdev sqrt df h
    obtain ⟨ps, _, hcore⟩ := solveE_ok_core h
    exact solveCore_table_props hcore
  · intro s values errors const combo check stdev sqrt df h
    obtain ⟨ps, _, hcore⟩ := solvePy_ok_core h
    exact solveCore_table_props hcore

/-- Concrete instance of the single-`=` case: `x=1` is rewritten to the
zero form `(x)-(1)` and handed to the parser. -/
theorem c9_witness :
    parseEquation (fun _ => some (Expr.num 0)) ['x', '=', '1'] =
      .ok (Expr.num 0) := by
  have h := (c9_equation_parsing (fun _ => some (Expr.num 0))
    ['x', '=', '1']).2.1 ['x'] ['1'] rfl (by decide) (by decide)
  simpa using h


/-! ### Concrete witnesses and counterexamples -/

section

attribute [local semireducible] Rat.sub Rat.add Rat.mul Rat.inv

/-- C1 witness at the sample system `x - y = 0` with known error on `y`:
the unknown-error column of the result table equals the computed `xu`. -/
theorem c1_witness :
    errColumn sampleTable
        (usedVarsC sampleSym.partials sampleValues sampleErrors).1 =
      ((solveVectors sampleSym.partials sampleValues sampleErrors [] false id
        [[(1 : ℚ), -1]]).1).map some :=
  (c1_error_propagation sampleSym sampleValues sampleErrors [] none false id
    sampleTable sampleSym.partials [[(1 : ℚ), -1]] rfl (by decide)
    (by decide)).1.1

/-- C2 counterexample: a partial-derivative variable that is in neither
`values` nor `errors` is outside the column dict, so `jacobian` raises
`KeyError` instead of returning the claimed matrix. -/
theorem c2_counterexample :
    jacobianE (mkSymSolver [Expr.var "x"] [] [] (1/100)) [] [] none =
      .error (.keyError "x") := by decide

/-- C2 witness: for the sample system the Jacobian `[[1, -1]]` has one row
per equation and its unknown block is square. -/
theorem c2_witness :
    ([[(1 : ℚ), -1]] : List (List ℚ)).length =
      (usedVarsC sampleSym.partials sampleValues sampleErrors).1.length :=
  ((c2_jacobian_amended.1 [Expr.sub (.var "x") (.var "y")] [] [] (1/100)
    sampleValues sampleErrors none sampleSym.partials
    [Expr.sub (.var "x") (.var "y")] [[(1 : ℚ), -1]] rfl rfl (by decide)).2.2
    (by decide)).1

/-- C4 witness: one unknown against two equations is rejected with the
`>`-shaped indeterminacy error listing the known-error variables. -/
theorem c4_witness :
    checkDeterminancyCore ["x"] ["y"] 2 =
      .error (.indeterminate 2 1 ">" "remove" 1 ["y"]) :=
  (c4_determinacy.1 ["x"] ["y"] 2).2.1 (by decide)

/-- C5 counterexample: the Python-function solver's `check` accepts inputs
whose `values` and `errors` use the restricted name `pi`. -/
theorem c5_counterexample :
    checkPy samplePyR [("x", 1), ("pi", 3)] [("pi", 1/10)] none = .ok () ∧
    "pi" ∈ keysOf ([("pi", (1 : ℚ)/10)]) ∧
    "pi" ∈ restrictedNames := by decide

/-- C5 witness: the symbolic solver's `check` rejects a `values` dict
keyed by the restricted name `pi`. -/
theorem c5_witness :
    checkE sampleSym [("pi", (3 : ℚ))] sampleErrors none =
      .error (.restrictedSymbol
        (offendingSymbols [("pi", (3 : ℚ))] sampleErrors)) :=
  c5_restricted_check_amended.1 sampleSym [("pi", 3)] sampleErrors none
    (by decide)

/-- C6 counterexample: the sample pipeline's link routes the solved error
of `x` into the name `bogus`, which is not a variable of the second stage,
yet the pipeline run succeeds. -/
theorem c6_counterexample :
    samplePipeline.links = [[("x", "bogus")]] ∧
    "bogus" ∉ eqVarsC sampleSym2.partials ∧
    (pipelineSolve samplePipeline sampleValuesList sampleErrorsList none true
      false id).isOk = true := by decide

/-- C6 witness: applying the link `x ↦ bogus` over the sample result table
stores the solved error of `x` under the key `bogus`. -/
theorem c6_witness :
    (([("b", (1 : ℚ)/20), ("bogus", 1/10)] : Dict ℚ).lookup "bogus") =
      some ((1 : ℚ)/10) :=
  c6_pipeline_links_amended.1 sampleTable [] "x" "bogus" []
    [("b", 1/20)] [("b", 1/20), ("bogus", 1/10)]
    ⟨"x", 2, 1/10, some 5, true, none⟩ (by decide) (by decide) (by decide)

/-- C8 witness: the sample result table is sorted by and uniquely keyed by
the variable name. -/
theorem c8_witness :
    List.Sorted (· ≤ ·) (sampleTable.map fun r => r.var) ∧
    (sampleTable.map fun r => r.var).Nodup :=
  (c8_percent_error_and_keys.1 sampleSym sampleValues sampleErrors [] none
    true false id sampleTable (by decide)).2

/-- C10 witness: a concrete pipeline run over the store leaves the
caller's `errors` dict cell unchanged. -/
theorem c10_witness :
    storeRead (pipelineSolveStore samplePipeline [0, 2] [1, 3] true true
      false id [sampleValues, sampleErrors, [("a", 3), ("b", 3)],
        [("b", 1/20)]]).1 1 =
      storeRead [sampleValues, sampleErrors, [("a", 3), ("b", 3)],
        [("b", 1/20)]] 1 :=
  c10_solve_no_mutation samplePipeline [0, 2] [1, 3] true true false id
    [sampleValues, sampleErrors, [("a", 3), ("b", 3)], [("b", 1/20)]] 1
    (by decide)

end

end ErrorSolverModel
